import Mathlib

/-!
Verification of the meta-drive Google Drive → PostgreSQL sync engine.

The development shallowly embeds the two sync paths of the repository:
* the paginated streaming service `GoogleDriveSyncService` (startSync /
  getTotalFileCount / syncDriveFilesWithPagination / processFilesBatch /
  syncAllPermissions / cleanupOrphanedData), and
* the one-shot POST route (GoogleDriveService.syncAllData /
  cleanupOrphanedRecords / syncDriveFiles / syncDrivePermissions).

Persisted state is a pair of row lists (DriveFile, DrivePermission) with
Prisma-style find/create/update/delete modelled as list operations keyed by
the primary id. Timestamps are epoch integers, Google API payload fields are
Options, and JavaScript truthiness defaulting (`x || d`) is modelled
explicitly. Runtime failures that the source catches per record / per
grant-listing call are modelled by failure oracles (lists of failing ids,
`Option`-returning permission listings).
-/

namespace MetaDrive

/-- A persisted `DriveFile` row (Prisma model: id PK, name, mimeType,
parents joined as a comma string, size, modifiedTime, createdTime, isFolder,
trashed). -/
structure DriveFileRow where
  id : String
  name : String
  mimeType : Option String
  parents : Option String
  size : Option Int
  modifiedTime : Option Int
  createdTime : Option Int
  isFolder : Bool
  trashed : Bool
deriving DecidableEq, Repr

/-- A persisted `DrivePermission` row (id PK, fileId FK → DriveFile.id,
type, role, emailAddress, domain, allowFileDiscovery). -/
structure DrivePermissionRow where
  id : String
  fileId : String
  type : String
  role : String
  emailAddress : Option String
  domain : Option String
  allowFileDiscovery : Bool
deriving DecidableEq, Repr

/-- A raw file object as returned by the Drive v3 `files.list` API: every
field other than the id may be missing; `size` is modelled as the parsed
integer when present. -/
structure RawDriveFile where
  id : String
  name : Option String
  mimeType : Option String
  parents : Option (List String)
  size : Option Int
  createdTime : Option Int
  modifiedTime : Option Int
  trashed : Option Bool
deriving DecidableEq, Repr

/-- A raw permission object as returned by `permissions.list`. -/
structure RawPermission where
  id : String
  type : Option String
  role : Option String
  emailAddress : Option String
  domain : Option String
  allowFileDiscovery : Option Bool
deriving DecidableEq, Repr

/-- JavaScript `x || d` on an optional string: both `undefined`/`null` and
the empty string are falsy and give the default. -/
def jsStrOr (x : Option String) (d : String) : String :=
  match x with
  | none => d
  | some s => if s = "" then d else s

/-- JavaScript `x || null` on an optional string: the empty string collapses
to null. -/
def jsStrOrNull (x : Option String) : Option String :=
  match x with
  | none => none
  | some s => if s = "" then none else s

/-- JavaScript `x || null` on an optional integer: `0` is falsy and
collapses to null. -/
def jsIntOrNull (x : Option Int) : Option Int :=
  match x with
  | none => none
  | some n => if n = 0 then none else some n

/-- The folder MIME type constant used for `isFolder` detection. -/
def folderMime : String := "application/vnd.google-apps.folder"

/-- The `DriveFileData` value built by the sync service from an API file
(the map in syncDriveFilesWithPagination): `name || 'Untitled'`,
`mimeType || null`, `trashed || false`,
`isFolder := mimeType === folderMime`. -/
structure DriveFileData where
  id : String
  name : String
  mimeType : Option String
  parents : Option (List String)
  size : Option Int
  createdTime : Option Int
  modifiedTime : Option Int
  trashed : Bool
  isFolder : Bool
deriving DecidableEq, Repr

/-- Conversion performed by the paginated service before batch processing. -/
def toDriveFileData (file : RawDriveFile) : DriveFileData :=
  { id := file.id
    name := jsStrOr file.name "Untitled"
    mimeType := jsStrOrNull file.mimeType
    parents := file.parents
    size := file.size
    createdTime := file.createdTime
    modifiedTime := file.modifiedTime
    trashed := file.trashed.getD false
    isFolder := decide (file.mimeType = some folderMime) }

/-- The row written by `processFilesBatch` (paginated service): parents are
joined with commas (a JS array is always truthy, so `[]` joins to `""`). -/
def toDriveFileRow (f : DriveFileData) : DriveFileRow :=
  { id := f.id
    name := f.name
    mimeType := f.mimeType
    parents := f.parents.map (String.intercalate ",")
    size := f.size
    modifiedTime := f.modifiedTime
    createdTime := f.createdTime
    isFolder := f.isFolder
    trashed := f.trashed }

/-- The row written by the one-shot route's `syncDriveFiles`, which applies
its own JS-truthiness defaults (`name || 'Untitled'`, `mimeType || null`,
`size || null` — so a 0 size collapses to null — `isFolder || false`,
`trashed || false`). -/
def serverFileRow (f : DriveFileData) : DriveFileRow :=
  { id := f.id
    name := if f.name = "" then "Untitled" else f.name
    mimeType := jsStrOrNull f.mimeType
    parents := f.parents.map (String.intercalate ",")
    size := jsIntOrNull f.size
    modifiedTime := f.modifiedTime
    createdTime := f.createdTime
    isFolder := f.isFolder
    trashed := f.trashed }

/-- The `drivePermissionData` object built from an API permission for a given
file in `syncAllPermissions`: `type || 'user'`, `role || 'reader'`,
`emailAddress || null`, `domain || null`, `allowFileDiscovery || false`. -/
def toDrivePermissionRow (fileId : String) (p : RawPermission) : DrivePermissionRow :=
  { id := p.id
    fileId := fileId
    type := jsStrOr p.type "user"
    role := jsStrOr p.role "reader"
    emailAddress := jsStrOrNull p.emailAddress
    domain := jsStrOrNull p.domain
    allowFileDiscovery := p.allowFileDiscovery.getD false }

/-- The permission row written by the one-shot route's
`syncDrivePermissions` from a `DrivePermissionData` value (same defaults). -/
def serverPermRow (p : DrivePermissionRow) : DrivePermissionRow :=
  { id := p.id
    fileId := p.fileId
    type := if p.type = "" then "user" else p.type
    role := if p.role = "" then "reader" else p.role
    emailAddress := jsStrOrNull p.emailAddress
    domain := jsStrOrNull p.domain
    allowFileDiscovery := p.allowFileDiscovery }

/-- The persisted database: the two Prisma tables. -/
structure DB where
  files : List DriveFileRow
  perms : List DrivePermissionRow
deriving DecidableEq, Repr

/-- `prisma.driveFile.findUnique(\x7b where: \x7b id \x7d \x7d)`. -/
def DB.findFile (db : DB) (id : String) : Option DriveFileRow :=
  db.files.find? (fun r => r.id = id)

/-- `prisma.drivePermission.findUnique(\x7b where: \x7b id \x7d \x7d)`. -/
def DB.findPerm (db : DB) (id : String) : Option DrivePermissionRow :=
  db.perms.find? (fun r => r.id = id)

/-- `tx.driveFile.create`. -/
def DB.createFile (db : DB) (row : DriveFileRow) : DB :=
  { db with files := db.files ++ [row] }

/-- `tx.driveFile.update(\x7b where: \x7b id \x7d \x7d)`: replaces the row with
the matching primary id. -/
def DB.updateFile (db : DB) (row : DriveFileRow) : DB :=
  { db with files := db.files.map (fun r => if r.id = row.id then row else r) }

/-- `tx.drivePermission.create`. -/
def DB.createPerm (db : DB) (row : DrivePermissionRow) : DB :=
  { db with perms := db.perms ++ [row] }

/-- `tx.drivePermission.update(\x7b where: \x7b id \x7d \x7d)`. -/
def DB.updatePerm (db : DB) (row : DrivePermissionRow) : DB :=
  { db with perms := db.perms.map (fun r => if r.id = row.id then row else r) }

/-- The ids of the persisted files (`findMany(\x7b select: \x7b id \x7d \x7d)`). -/
def DB.fileIds (db : DB) : List String :=
  db.files.map (fun r => r.id)

/-- The `hasChanges` check of the source:
`JSON.stringify(existing) !== JSON.stringify(\x7b...existing, ...incoming\x7d)`.
The merged object carries the existing row's key order and, since the
incoming object supplies every column, the incoming row's values; the two
serializations therefore differ exactly when some field differs. -/
def fileHasChanges (existing incoming : DriveFileRow) : Bool :=
  decide (existing ≠ incoming)

/-- The same serialize-merge-compare check for permission rows. -/
def permHasChanges (existing incoming : DrivePermissionRow) : Bool :=
  decide (existing ≠ incoming)

/-- Reconciliation decision for one incoming entity. -/
inductive Decision where
  | create
  | update
  | skip
deriving DecidableEq, Repr

/-- The decision taken by the file upsert code: absent → create; present and
`hasChanges` → update; otherwise skip. -/
def decideFile (db : DB) (f : DriveFileData) : Decision :=
  match db.findFile f.id with
  | none => Decision.create
  | some existing =>
      if fileHasChanges existing (toDriveFileRow f) then Decision.update else Decision.skip

/-- The decision taken by the one-shot route's file upsert (same branch
structure, but over the row with the route's own defaults). -/
def decideServerFile (db : DB) (f : DriveFileData) : Decision :=
  match db.findFile f.id with
  | none => Decision.create
  | some existing =>
      if fileHasChanges existing (serverFileRow f) then Decision.update else Decision.skip

/-- The decision taken by the permission upsert code of the paginated
service for a permission fetched under `fileId`. -/
def decidePerm (db : DB) (fileId : String) (p : RawPermission) : Decision :=
  match db.findPerm p.id with
  | none => Decision.create
  | some existing =>
      if permHasChanges existing (toDrivePermissionRow fileId p) then Decision.update
      else Decision.skip

/-- A progress event as broadcast by the paginated service (`type`, `total`,
`done`, `percent`; the free-text message and payload are omitted). Percent is
an exact rational, mirroring the JS float arithmetic of the source on the
inputs considered here. -/
structure ProgressEvent where
  type : String
  total : Nat
  done : Nat
  percent : ℚ
deriving DecidableEq, Repr

/-- The loop of `getTotalFileCount`: drains the counting pages, accumulating
the total and emitting one `page_loaded` event per page with
`percent = min((totalCount / 1000) * 100, 5)`. -/
def countingLoop : Nat → List (List RawDriveFile) → Nat × List ProgressEvent
  | cum, [] => (cum, [])
  | cum, page :: rest =>
      let cum' := cum + page.length
      let r := countingLoop cum' rest
      (r.1, ⟨"page_loaded", cum', 0, min ((cum' : ℚ) / 1000 * 100) 5⟩ :: r.2)

/-- `getTotalFileCount`: counts all files over the paginated listing. -/
def getTotalFileCount (pages : List (List RawDriveFile)) : Nat × List ProgressEvent :=
  countingLoop 0 pages

/-- The fetch loop of `syncDriveFilesWithPagination`: accumulates all pages
and emits one `page_loaded` event per page with
`percent = min((allFiles.length / totalFiles) * 60, 60)`. -/
def fetchLoop (totalFiles : Nat) :
    List RawDriveFile → List (List RawDriveFile) → List RawDriveFile × List ProgressEvent
  | acc, [] => (acc, [])
  | acc, page :: rest =>
      let acc' := acc ++ page
      let r := fetchLoop totalFiles acc' rest
      (r.1,
        ⟨"page_loaded", totalFiles, acc'.length,
          min ((acc'.length : ℚ) / (totalFiles : ℚ) * 60) 60⟩ :: r.2)

/-- Mutable state of the file-persistence phase: the database, the service's
`processedFiles` and `errors` counters, and observation counters recording
how many `tx.driveFile.create` / `update` calls ran and how many records were
skipped unchanged. -/
structure FileSyncState where
  db : DB
  processedFiles : Nat
  errors : Nat
  createdOps : Nat
  updatedOps : Nat
  skippedOps : Nat
deriving DecidableEq, Repr

/-- One iteration of the per-file loop inside a `processFilesBatch`
transaction. A file in `failFileIds` models a record whose processing throws:
the error is caught, `errors` is incremented and nothing else happens.
Otherwise the upsert branch runs, `processedFiles` is incremented and a
`file_processed` event with
`percent = min(60 + (processedFiles / totalFiles) * 35, 95)` is emitted. -/
def processOneFile (failFileIds : List String) (totalFiles : Nat)
    (st : FileSyncState) (f : DriveFileData) : FileSyncState × List ProgressEvent :=
  if f.id ∈ failFileIds then
    ({ st with errors := st.errors + 1 }, [])
  else
    let row := toDriveFileRow f
    let st1 :=
      match st.db.findFile f.id with
      | some existing =>
          if fileHasChanges existing row then
            { st with db := st.db.updateFile row, updatedOps := st.updatedOps + 1 }
          else
            { st with skippedOps := st.skippedOps + 1 }
      | none => { st with db := st.db.createFile row, createdOps := st.createdOps + 1 }
    let done := st1.processedFiles + 1
    ({ st1 with processedFiles := done },
      [⟨"file_processed", totalFiles, done,
        min (60 + (done : ℚ) / (totalFiles : ℚ) * 35) 95⟩])

/-- Fold step threading the state and the emitted events. -/
def stepFile (failFileIds : List String) (totalFiles : Nat)
    (a : FileSyncState × List ProgressEvent) (f : DriveFileData) :
    FileSyncState × List ProgressEvent :=
  let r := processOneFile failFileIds totalFiles a.1 f
  (r.1, a.2 ++ r.2)

/-- One batch of `processFilesBatch`, i.e. one `prisma.$transaction`
processing the batch's records in submission order. -/
def runFileBatch (failFileIds : List String) (totalFiles : Nat)
    (acc : FileSyncState × List ProgressEvent) (batch : List DriveFileData) :
    FileSyncState × List ProgressEvent :=
  batch.foldl (stepFile failFileIds totalFiles) acc

/-- The slicing loop of `processFilesBatch`: consecutive slices of at most
`n` records, in submission order (fuel-driven, structurally terminating). -/
def chunksAux {α : Type} (n : Nat) : Nat → List α → List (List α)
  | 0, _ => []
  | _ + 1, [] => []
  | fuel + 1, l => l.take n :: chunksAux n fuel (l.drop n)

/-- `batches.push(files.slice(i, i + batchSize))` for `i = 0, n, 2n, …`. -/
def chunks {α : Type} (n : Nat) (l : List α) : List (List α) :=
  chunksAux n l.length l

/-- `processFilesBatch`: slice the files into batches of at most 10 and run
each batch in its own transaction. -/
def processFilesBatch (failFileIds : List String) (totalFiles : Nat)
    (st : FileSyncState) (files : List DriveFileData) :
    FileSyncState × List ProgressEvent :=
  (chunks 10 files).foldl (runFileBatch failFileIds totalFiles) (st, [])

/-- Mutable state of the permission-sync phase: the database, the service's
permission counters and shared `errors` counter, the per-run
`processedPermissionIds` dedup set, and observation counters for the
permission create/update/skip branches. -/
structure PermSyncState where
  db : DB
  totalPermissions : Nat
  processedPermissions : Nat
  errors : Nat
  processedPermIds : List String
  createdOps : Nat
  updatedOps : Nat
  skippedOps : Nat
deriving DecidableEq, Repr

/-- One iteration of the inner permission loop of `syncAllPermissions`
(inside the per-file transaction): ids already in the dedup set are skipped
outright; a permission in `failPermIds` models a record whose upsert throws
(caught, `errors` incremented, id not added to the dedup set); otherwise the
upsert branch runs and the id is recorded as processed. -/
def processOnePermission (failPermIds : List String) (fileId : String)
    (st : PermSyncState) (p : RawPermission) : PermSyncState :=
  if p.id ∈ st.processedPermIds then st
  else if p.id ∈ failPermIds then { st with errors := st.errors + 1 }
  else
    let row := toDrivePermissionRow fileId p
    let st1 :=
      match st.db.findPerm p.id with
      | some existing =>
          if permHasChanges existing row then
            { st with db := st.db.updatePerm row, updatedOps := st.updatedOps + 1 }
          else
            { st with skippedOps := st.skippedOps + 1 }
      | none => { st with db := st.db.createPerm row, createdOps := st.createdOps + 1 }
    { st1 with
        processedPermIds := st1.processedPermIds ++ [p.id]
        processedPermissions := st1.processedPermissions + 1 }

/-- The outer loop of `syncAllPermissions` over the persisted file ids.
`permsOf fid = none` models a `permissions.list` call that throws for that
file: it is caught, `errors` is incremented and the loop continues. On
success the permissions are counted into `totalPermissions`, the
transaction processes them, and one event with
`percent = min(95 + (i / allFiles.length) * 5, 100)` is emitted. -/
def syncPermsLoop (permsOf : String → Option (List RawPermission))
    (failPermIds : List String) (nFiles : Nat) :
    Nat → PermSyncState → List String → PermSyncState × List ProgressEvent
  | _, st, [] => (st, [])
  | i, st, fid :: rest =>
      match permsOf fid with
      | none => syncPermsLoop permsOf failPermIds nFiles (i + 1)
          { st with errors := st.errors + 1 } rest
      | some perms =>
          let st1 := { st with totalPermissions := st.totalPermissions + perms.length }
          let st2 := perms.foldl (processOnePermission failPermIds fid) st1
          let r := syncPermsLoop permsOf failPermIds nFiles (i + 1) st2 rest
          (r.1,
            ⟨"file_processed", nFiles, i + 1,
              min (95 + (i : ℚ) / (nFiles : ℚ) * 5) 100⟩ :: r.2)

/-- `syncAllPermissions`: iterates over all persisted file ids, starting from
a fresh dedup set and `totalPermissions = 0`; `errors0` is the running error
counter carried over from the file phase. -/
def syncAllPermissions (permsOf : String → Option (List RawPermission))
    (failPermIds : List String) (db : DB) (errors0 : Nat) :
    PermSyncState × List ProgressEvent :=
  let fids := db.fileIds
  syncPermsLoop permsOf failPermIds fids.length 0
    { db := db, totalPermissions := 0, processedPermissions := 0, errors := errors0,
      processedPermIds := [], createdOps := 0, updatedOps := 0, skippedOps := 0 } fids

/-- `cleanupOrphanedData` of the paginated service: deletes the permissions
whose `fileId` matches no persisted file. It deletes no files. -/
def cleanupOrphanedData (db : DB) : DB :=
  let allFileIds := db.fileIds
  { db with perms := db.perms.filter (fun p => decide (p.fileId ∈ allFileIds)) }

/-- Result of a full paginated run: final database, the `SyncStats` counters,
the observation counters, and the ordered list of broadcast events. -/
structure RunResult where
  db : DB
  totalFiles : Nat
  processedFiles : Nat
  totalPermissions : Nat
  processedPermissions : Nat
  errors : Nat
  filesCreated : Nat
  filesUpdated : Nat
  filesSkipped : Nat
  permsCreated : Nat
  permsUpdated : Nat
  permsSkipped : Nat
  events : List ProgressEvent
deriving DecidableEq, Repr

/-- `GoogleDriveSyncService.startSync`: count, fetch all pages, convert,
process file batches, sync permissions for every persisted file, then clean
up orphaned data; events are broadcast in phase order. -/
def startSync (pages : List (List RawDriveFile))
    (permsOf : String → Option (List RawPermission))
    (failFileIds failPermIds : List String) (db : DB) : RunResult :=
  let c := getTotalFileCount pages
  let f := fetchLoop c.1 [] pages
  let driveFiles := f.1.map toDriveFileData
  let b := processFilesBatch failFileIds c.1
    { db := db, processedFiles := 0, errors := 0,
      createdOps := 0, updatedOps := 0, skippedOps := 0 } driveFiles
  let p := syncAllPermissions permsOf failPermIds b.1.db b.1.errors
  { db := cleanupOrphanedData p.1.db
    totalFiles := c.1
    processedFiles := b.1.processedFiles
    totalPermissions := p.1.totalPermissions
    processedPermissions := p.1.processedPermissions
    errors := p.1.errors
    filesCreated := b.1.createdOps
    filesUpdated := b.1.updatedOps
    filesSkipped := b.1.skippedOps
    permsCreated := p.1.createdOps
    permsUpdated := p.1.updatedOps
    permsSkipped := p.1.skippedOps
    events := c.2 ++ f.2 ++ b.2 ++ p.2 }

/-- `GoogleDriveService.listAllFiles`'s mapping of an API file (one-shot
path): note `name || ''` (empty string, not 'Untitled') here. -/
def listAllFilesMap (file : RawDriveFile) : DriveFileData :=
  { id := file.id
    name := jsStrOr file.name ""
    mimeType := jsStrOrNull file.mimeType
    parents := file.parents
    size := file.size
    createdTime := file.createdTime
    modifiedTime := file.modifiedTime
    trashed := file.trashed.getD false
    isFolder := decide (file.mimeType = some folderMime) }

/-- `GoogleDriveService.getFilePermissions`: on success maps the raw
permissions with `type || ''` / `role || ''`; when the underlying API call
throws (`permsOf fileId = none`) the error is caught and an empty array is
returned — no error is surfaced or counted. -/
def getFilePermissions (permsOf : String → Option (List RawPermission))
    (fileId : String) : List DrivePermissionRow :=
  match permsOf fileId with
  | none => []
  | some perms =>
      perms.map (fun p =>
        { id := p.id
          fileId := fileId
          type := jsStrOr p.type ""
          role := jsStrOr p.role ""
          emailAddress := jsStrOrNull p.emailAddress
          domain := jsStrOrNull p.domain
          allowFileDiscovery := p.allowFileDiscovery.getD false })

/-- `GoogleDriveService.syncAllData`: list all files, then concatenate the
permissions fetched for each file. -/
def syncAllData (catalog : List RawDriveFile)
    (permsOf : String → Option (List RawPermission)) :
    List DriveFileData × List DrivePermissionRow :=
  let files := catalog.map listAllFilesMap
  (files, files.foldl (fun acc f => acc ++ getFilePermissions permsOf f.id) [])

/-- `cleanupOrphanedRecords` of the one-shot route: deletes the permissions
whose `fileId` is outside the currently fetched file-id set, then deletes the
files whose id is outside that set. -/
def cleanupOrphanedRecords (db : DB) (currentFiles : List DriveFileData) : DB :=
  let currentFileIds := currentFiles.map (fun f => f.id)
  { files := db.files.filter (fun r => decide (r.id ∈ currentFileIds))
    perms := db.perms.filter (fun p => decide (p.fileId ∈ currentFileIds)) }

/-- Result counters of the one-shot `syncDriveFiles`. -/
structure FileSyncResult where
  db : DB
  upserted : Nat
  updated : Nat
  skipped : Nat
  errors : Nat
  total : Nat
deriving DecidableEq, Repr

/-- One step of the one-shot `syncDriveFiles` transaction loop; a file in
`failFileIds` models a record whose upsert throws (caught and counted). -/
def syncDriveFilesStep (failFileIds : List String)
    (a : DB × FileSyncResult) (f : DriveFileData) : DB × FileSyncResult :=
  if f.id ∈ failFileIds then
    (a.1, { a.2 with errors := a.2.errors + 1 })
  else
    let row := serverFileRow f
    match a.1.findFile f.id with
    | some existing =>
        if fileHasChanges existing row then
          (a.1.updateFile row, { a.2 with updated := a.2.updated + 1 })
        else
          (a.1, { a.2 with skipped := a.2.skipped + 1 })
    | none => (a.1.createFile row, { a.2 with upserted := a.2.upserted + 1 })

/-- `syncDriveFiles` of the one-shot route: one transaction over all files,
returning `\x7b upserted, updated, skipped, errors, total: files.length \x7d`. -/
def syncDriveFiles (failFileIds : List String) (db : DB)
    (files : List DriveFileData) : FileSyncResult :=
  let r := files.foldl (syncDriveFilesStep failFileIds)
    (db, { db := db, upserted := 0, updated := 0, skipped := 0, errors := 0, total := 0 })
  { db := r.1, upserted := r.2.upserted, updated := r.2.updated,
    skipped := r.2.skipped, errors := r.2.errors, total := files.length }

/-- Result counters of the one-shot `syncDrivePermissions`; `cleaned` is the
route's `const cleaned = 0`. -/
structure PermUpsertResult where
  db : DB
  upserted : Nat
  updated : Nat
  skipped : Nat
  errors : Nat
  cleaned : Nat
  total : Nat
deriving DecidableEq, Repr

/-- One step of the one-shot `syncDrivePermissions` transaction loop. -/
def syncDrivePermissionsStep (failPermIds : List String)
    (a : DB × PermUpsertResult) (p : DrivePermissionRow) : DB × PermUpsertResult :=
  if p.id ∈ failPermIds then
    (a.1, { a.2 with errors := a.2.errors + 1 })
  else
    let row := serverPermRow p
    match a.1.findPerm p.id with
    | some existing =>
        if permHasChanges existing row then
          (a.1.updatePerm row, { a.2 with updated := a.2.updated + 1 })
        else
          (a.1, { a.2 with skipped := a.2.skipped + 1 })
    | none => (a.1.createPerm row, { a.2 with upserted := a.2.upserted + 1 })

/-- `syncDrivePermissions` of the one-shot route: filters the incoming
permissions down to those whose `fileId` belongs to the fetched file set,
upserts only those, and returns `cleaned = 0` and
`total = validPermissions.length`. -/
def syncDrivePermissions (failPermIds : List String) (db : DB)
    (permissions : List DrivePermissionRow) (files : List DriveFileData) :
    PermUpsertResult :=
  let validFileIds := files.map (fun f => f.id)
  let validPermissions := permissions.filter (fun p => decide (p.fileId ∈ validFileIds))
  let r := validPermissions.foldl (syncDrivePermissionsStep failPermIds)
    (db, { db := db, upserted := 0, updated := 0, skipped := 0, errors := 0,
           cleaned := 0, total := 0 })
  { db := r.1, upserted := r.2.upserted, updated := r.2.updated,
    skipped := r.2.skipped, errors := r.2.errors, cleaned := 0,
    total := validPermissions.length }

/-- Result of the one-shot POST handler run. -/
structure PostResult where
  db : DB
  filesRes : FileSyncResult
  permsRes : PermUpsertResult
deriving DecidableEq, Repr

/-- The POST `/api/drive/sync` flow: fetch everything, clean up orphaned
records, sync files, sync permissions. -/
def postSync (catalog : List RawDriveFile)
    (permsOf : String → Option (List RawPermission))
    (failFileIds failPermIds : List String) (db : DB) : PostResult :=
  let d := syncAllData catalog permsOf
  let db1 := cleanupOrphanedRecords db d.1
  let fr := syncDriveFiles failFileIds db1 d.1
  let pr := syncDrivePermissions failPermIds fr.db d.2 d.1
  { db := pr.db, filesRes := fr, permsRes := pr }

/-- Observable server state for the GET `?action=start` handler: the number
of sync runs started so far (each call constructs a fresh service and fires
`startSync` without awaiting it). -/
structure ServerState where
  activeRuns : Nat
deriving DecidableEq, Repr

/-- The immediate JSON answer of `handleStartSync`. -/
structure StartSyncResponse where
  success : Bool
  status : Nat
deriving DecidableEq, Repr

/-- `handleStartSync`: consults no single-flight state, fires the run in the
background, and immediately returns `\x7b success: true \x7d` with HTTP 200 —
regardless of whether another run is already active. -/
def handleStartSync (st : ServerState) : StartSyncResponse × ServerState :=
  ({ success := true, status := 200 }, { activeRuns := st.activeRuns + 1 })

/-! ### Example data used by concrete witnesses and counterexamples -/

/-- A sample raw file with a modification time. -/
def exRaw : RawDriveFile :=
  { id := "A", name := some "doc", mimeType := none, parents := none,
    size := none, createdTime := none, modifiedTime := some 5, trashed := some false }

/-- The converted sample file. -/
def exFile : DriveFileData := toDriveFileData exRaw

/-- A sample raw permission with every optional field missing. -/
def exPermRaw : RawPermission :=
  { id := "perm1", type := none, role := none, emailAddress := none,
    domain := none, allowFileDiscovery := none }

/-- A sample raw file with no name. -/
def exRawNoName : RawDriveFile :=
  { id := "B", name := none, mimeType := some folderMime, parents := none,
    size := none, createdTime := none, modifiedTime := none, trashed := none }

/-! ### C5 — change-detection precision -/

/-- **C5.** Change-detection precision: an incoming file with no persisted
record decides create; with a persisted record, the decision is update
exactly when some tracked field of the stored row differs from the incoming
row and skip exactly when the rows are identical — in particular a persisted
row differing only in `modifiedTime` decides update. The same trichotomy
holds for permissions. The serialize-merge-compare of the source is a
structural field-set comparison, so field order cannot cause a spurious
diff. -/
theorem change_detection_precision (db : DB) (f : DriveFileData)
    (fid : String) (p : RawPermission) :
    (db.findFile f.id = none → decideFile db f = Decision.create) ∧
    (∀ ex, db.findFile f.id = some ex →
      (decideFile db f = Decision.update ↔ ex ≠ toDriveFileRow f)) ∧
    (∀ ex, db.findFile f.id = some ex →
      (decideFile db f = Decision.skip ↔ ex = toDriveFileRow f)) ∧
    (∀ t, db.findFile f.id = some { toDriveFileRow f with modifiedTime := t } →
      t ≠ f.modifiedTime → decideFile db f = Decision.update) ∧
    (db.findPerm p.id = none → decidePerm db fid p = Decision.create) ∧
    (∀ ex, db.findPerm p.id = some ex →
      (decidePerm db fid p = Decision.update ↔ ex ≠ toDrivePermissionRow fid p)) ∧
    (∀ ex, db.findPerm p.id = some ex →
      (decidePerm db fid p = Decision.skip ↔ ex = toDrivePermissionRow fid p)) := by
  refine ⟨?_, ?_, ?_, ?_, ?_, ?_, ?_⟩
  · intro h; simp [decideFile, h]
  · intro ex h
    by_cases hc : ex = toDriveFileRow f <;> simp [decideFile, h, fileHasChanges, hc]
  · intro ex h
    by_cases hc : ex = toDriveFileRow f <;> simp [decideFile, h, fileHasChanges, hc]
  · intro t h ht
    have hne : ({ toDriveFileRow f with modifiedTime := t } : DriveFileRow) ≠ toDriveFileRow f := by
      intro he
      exact ht (congrArg DriveFileRow.modifiedTime he)
    simp [decideFile, h, fileHasChanges, hne]
  · intro h; simp [decidePerm, h]
  · intro ex h
    by_cases hc : ex = toDrivePermissionRow fid p <;> simp [decidePerm, h, permHasChanges, hc]
  · intro ex h
    by_cases hc : ex = toDrivePermissionRow fid p <;> simp [decidePerm, h, permHasChanges, hc]

/-- Concrete instances of C5: create on an empty store, update on a store
differing only in `modifiedTime`, skip on an identical store. -/
theorem change_detection_precision_witness :
    decideFile { files := [], perms := [] } exFile = Decision.create ∧
    decideFile { files := [{ toDriveFileRow exFile with modifiedTime := some 6 }], perms := [] }
      exFile = Decision.update ∧
    decideFile { files := [toDriveFileRow exFile], perms := [] } exFile = Decision.skip ∧
    decidePerm { files := [], perms := [toDrivePermissionRow "A" exPermRaw] } "A" exPermRaw
      = Decision.skip := by
  refine ⟨?_, ?_, ?_, ?_⟩
  · exact (change_detection_precision _ exFile "A" exPermRaw).1 (by decide)
  · exact (change_detection_precision _ exFile "A" exPermRaw).2.2.2.1 (some 6)
      (by decide) (by decide)
  · exact ((change_detection_precision _ exFile "A" exPermRaw).2.2.1 _ (by decide)).mpr rfl
  · exact ((change_detection_precision { files := [], perms := [toDrivePermissionRow "A" exPermRaw] }
      exFile "A" exPermRaw).2.2.2.2.2.2 _ (by decide)).mpr rfl

/-! ### C6 — defaults applied before comparison -/

/-- **C6.** The placeholder `Untitled` for a missing file name and the
defaults `user`/`reader` for a missing grant type/role are applied when the
incoming record is converted, i.e. before the change comparison; hence a
persisted record equal to the defaulted incoming record decides skip on a
re-sync, never a spurious update. -/
theorem defaults_applied_before_comparison (raw : RawDriveFile) (db : DB)
    (fid : String) (p : RawPermission) :
    ((raw.name = none ∨ raw.name = some "") → (toDriveFileData raw).name = "Untitled") ∧
    ((p.type = none ∨ p.type = some "") → (toDrivePermissionRow fid p).type = "user") ∧
    ((p.role = none ∨ p.role = some "") → (toDrivePermissionRow fid p).role = "reader") ∧
    (db.findFile raw.id = some (toDriveFileRow (toDriveFileData raw)) →
      decideFile db (toDriveFileData raw) = Decision.skip) ∧
    (db.findPerm p.id = some (toDrivePermissionRow fid p) →
      decidePerm db fid p = Decision.skip) := by
  refine ⟨?_, ?_, ?_, ?_, ?_⟩
  · rintro (h | h) <;> simp [toDriveFileData, jsStrOr, h]
  · rintro (h | h) <;> simp [toDrivePermissionRow, jsStrOr, h]
  · rintro (h | h) <;> simp [toDrivePermissionRow, jsStrOr, h]
  · intro h
    have hid : (toDriveFileData raw).id = raw.id := rfl
    rw [decideFile, hid, h]
    simp [fileHasChanges]
  · intro h
    rw [decidePerm, h]
    simp [permHasChanges]

/-- Concrete instance of C6: a nameless folder entry converts to the name
`Untitled`, a fully defaulted permission converts to `user`/`reader`, and a
store already holding the defaulted rows decides skip for both. -/
theorem defaults_applied_before_comparison_witness :
    (toDriveFileData exRawNoName).name = "Untitled" ∧
    (toDrivePermissionRow "B" exPermRaw).type = "user" ∧
    (toDrivePermissionRow "B" exPermRaw).role = "reader" ∧
    decideFile { files := [toDriveFileRow (toDriveFileData exRawNoName)], perms := [] }
      (toDriveFileData exRawNoName) = Decision.skip ∧
    decidePerm { files := [], perms := [toDrivePermissionRow "B" exPermRaw] } "B" exPermRaw
      = Decision.skip := by
  refine ⟨?_, ?_, ?_, ?_, ?_⟩
  · exact (defaults_applied_before_comparison exRawNoName
      { files := [], perms := [] } "B" exPermRaw).1 (Or.inl rfl)
  · exact (defaults_applied_before_comparison exRawNoName
      { files := [], perms := [] } "B" exPermRaw).2.1 (Or.inl rfl)
  · exact (defaults_applied_before_comparison exRawNoName
      { files := [], perms := [] } "B" exPermRaw).2.2.1 (Or.inl rfl)
  · exact (defaults_applied_before_comparison exRawNoName
      { files := [toDriveFileRow (toDriveFileData exRawNoName)], perms := [] }
      "B" exPermRaw).2.2.2.1 (by decide)
  · exact (defaults_applied_before_comparison exRawNoName
      { files := [], perms := [toDrivePermissionRow "B" exPermRaw] }
      "B" exPermRaw).2.2.2.2 (by decide)

/-! ### C4 — single-flight conflict -/

/-- **C4 counterexample.** A start request arriving while a run is already
active is not answered with a conflict: the handler again replies
`success = true` with HTTP 200, and a second concurrent run begins
(two runs active). -/
theorem single_flight_conflict_counterexample :
    (handleStartSync (handleStartSync { activeRuns := 0 }).2).1.success = true ∧
    (handleStartSync (handleStartSync { activeRuns := 0 }).2).1.status = 200 ∧
    (handleStartSync (handleStartSync { activeRuns := 0 }).2).2.activeRuns = 2 := by
  decide

/-- **C4 (amended).** The start handler maintains no single-flight guard:
every start request — in any server state, including one with a run already
active — is immediately accepted with `success = true` / HTTP 200 and
another concurrent run is started. No `AlreadyRunningError` or conflict
answer exists in the code. -/
theorem start_request_always_accepted (st : ServerState) :
    handleStartSync st
      = ({ success := true, status := 200 }, { activeRuns := st.activeRuns + 1 }) := rfl

/-! ### C9 — grant deduplication within a run -/

/-- **C9.** Within the permission-sync phase each permission id is written at
most once per run: an occurrence whose id is already in the per-run dedup set
leaves the entire state untouched (no create, no update, no error increment,
no `processedPermissions` increment, store unchanged); a first successful
occurrence records the id in the dedup set; and when the same permission is
listed under two files, the second listing performs no write — exactly one
create, one processed permission, and the row carries the first file's id. -/
theorem grant_dedup_per_run (failPermIds : List String) (fid fid2 : String)
    (st : PermSyncState) (p : RawPermission) :
    (p.id ∈ st.processedPermIds → processOnePermission failPermIds fid st p = st) ∧
    (p.id ∉ st.processedPermIds → p.id ∉ failPermIds →
      (processOnePermission failPermIds fid st p).processedPermIds
        = st.processedPermIds ++ [p.id]) ∧
    ((syncPermsLoop (fun _ => some [p]) [] 2 0
        { db := { files := [], perms := [] }, totalPermissions := 0,
          processedPermissions := 0, errors := 0, processedPermIds := [],
          createdOps := 0, updatedOps := 0, skippedOps := 0 } [fid, fid2]).1.db.perms
        = [toDrivePermissionRow fid p] ∧
     (syncPermsLoop (fun _ => some [p]) [] 2 0
        { db := { files := [], perms := [] }, totalPermissions := 0,
          processedPermissions := 0, errors := 0, processedPermIds := [],
          createdOps := 0, updatedOps := 0, skippedOps := 0 } [fid, fid2]).1.createdOps = 1 ∧
     (syncPermsLoop (fun _ => some [p]) [] 2 0
        { db := { files := [], perms := [] }, totalPermissions := 0,
          processedPermissions := 0, errors := 0, processedPermIds := [],
          createdOps := 0, updatedOps := 0, skippedOps := 0 } [fid, fid2]).1.updatedOps = 0 ∧
     (syncPermsLoop (fun _ => some [p]) [] 2 0
        { db := { files := [], perms := [] }, totalPermissions := 0,
          processedPermissions := 0, errors := 0, processedPermIds := [],
          createdOps := 0, updatedOps := 0, skippedOps := 0 } [fid, fid2]).1.errors = 0 ∧
     (syncPermsLoop (fun _ => some [p]) [] 2 0
        { db := { files := [], perms := [] }, totalPermissions := 0,
          processedPermissions := 0, errors := 0, processedPermIds := [],
          createdOps := 0, updatedOps := 0, skippedOps := 0 } [fid, fid2]).1.processedPermissions
        = 1) := by
  refine ⟨?_, ?_, ?_⟩
  · intro h
    simp [processOnePermission, h]
  · intro h1 h2
    simp only [processOnePermission, if_neg h1, if_neg h2]
    cases hm : st.db.findPerm p.id with
    | none => simp [hm]
    | some ex =>
        by_cases hc : permHasChanges ex (toDrivePermissionRow fid p) = true <;> simp [hm, hc]
  · simp [syncPermsLoop, processOnePermission, DB.findPerm, DB.createPerm,
      List.mem_singleton, List.find?]

/-- A permission-phase state whose dedup set already contains `perm1`. -/
def exStSeen : PermSyncState :=
  { db := { files := [], perms := [toDrivePermissionRow "F" exPermRaw] },
    totalPermissions := 1, processedPermissions := 1, errors := 0,
    processedPermIds := ["perm1"], createdOps := 1, updatedOps := 0, skippedOps := 0 }

/-- A fresh permission-phase state. -/
def exStFresh : PermSyncState :=
  { db := { files := [], perms := [] }, totalPermissions := 0,
    processedPermissions := 0, errors := 0, processedPermIds := [],
    createdOps := 0, updatedOps := 0, skippedOps := 0 }

/-- Concrete instance of C9: re-encountering `perm1` under a second file
changes nothing, and a first encounter records the id in the dedup set. -/
theorem grant_dedup_per_run_witness :
    processOnePermission [] "G" exStSeen exPermRaw = exStSeen ∧
    (processOnePermission [] "F" exStFresh exPermRaw).processedPermIds
      = exStFresh.processedPermIds ++ [exPermRaw.id] := by
  constructor
  · exact (grant_dedup_per_run [] "G" "G" exStSeen exPermRaw).1 (by decide)
  · exact (grant_dedup_per_run [] "F" "F" exStFresh exPermRaw).2.1 (by decide) (by decide)

/-! ### C10 — write-time referential filtering in the one-shot sync -/

/-- Rows present after a `drivePermission.update` were already present or are
the updated row itself. -/
theorem mem_updatePerm {db : DB} {row q : DrivePermissionRow}
    (h : q ∈ (db.updatePerm row).perms) : q ∈ db.perms ∨ q = row := by
  rcases List.mem_map.mp h with ⟨r, hr, he⟩
  by_cases hid : r.id = row.id
  · rw [if_pos hid] at he
    exact Or.inr he.symm
  · rw [if_neg hid] at he
    exact Or.inl (he ▸ hr)

/-- Rows present after a `drivePermission.create` were already present or are
the created row itself. -/
theorem mem_createPerm {db : DB} {row q : DrivePermissionRow}
    (h : q ∈ (db.createPerm row).perms) : q ∈ db.perms ∨ q = row := by
  simpa [DB.createPerm] using h

/-- One step of the one-shot permission upsert loop only ever writes the
defaulted row of the permission it is processing. -/
theorem syncDrivePermissionsStep_perms_sub (failPermIds : List String)
    (a : DB × PermUpsertResult) (p : DrivePermissionRow) :
    ∀ q ∈ (syncDrivePermissionsStep failPermIds a p).1.perms,
      q ∈ a.1.perms ∨ q = serverPermRow p := by
  intro q hq
  by_cases hf : p.id ∈ failPermIds
  · simp [syncDrivePermissionsStep, hf] at hq
    exact Or.inl hq
  · cases hm : a.1.findPerm p.id with
    | none =>
        simp [syncDrivePermissionsStep, hf, hm, DB.createPerm] at hq
        rcases hq with h | h
        · exact Or.inl h
        · exact Or.inr h
    | some ex =>
        by_cases hc : permHasChanges ex (serverPermRow p) = true
        · simp [syncDrivePermissionsStep, hf, hm, hc] at hq
          exact mem_updatePerm hq
        · simp [syncDrivePermissionsStep, hf, hm, hc] at hq
          exact Or.inl hq

/-- Folding the one-shot permission upsert over a list of permissions whose
`fileId` lies in `valid` only produces rows that were already present or
reference `valid`. -/
theorem syncDrivePermissions_fold_writes (failPermIds : List String)
    (valid : List String) :
    ∀ (ps : List DrivePermissionRow) (a : DB × PermUpsertResult),
      (∀ p ∈ ps, p.fileId ∈ valid) →
      (∀ q ∈ a.1.perms, q ∈ a.1.perms) →
      ∀ q ∈ (ps.foldl (syncDrivePermissionsStep failPermIds) a).1.perms,
        q ∈ a.1.perms ∨ q.fileId ∈ valid := by
  intro ps
  induction ps with
  | nil =>
      intro a _ _ q hq
      exact Or.inl hq
  | cons p rest ih =>
      intro a h _ q hq
      rw [List.foldl_cons] at hq
      have hrest : ∀ r ∈ rest, r.fileId ∈ valid := fun r hr => h r (List.mem_cons_of_mem _ hr)
      rcases ih (syncDrivePermissionsStep failPermIds a p) hrest (fun q hq => hq) q hq with
        hin | hv
      · rcases syncDrivePermissionsStep_perms_sub failPermIds a p q hin with h0 | hrow
        · exact Or.inl h0
        · refine Or.inr ?_
          rw [hrow]
          exact h p (List.mem_cons_self _ _)
      · exact Or.inr hv

/-- **C10.** The one-shot `syncDrivePermissions` drops, before any write,
every permission whose `fileId` is outside the fetched file-id set: each row
of the resulting store is either a pre-existing row or references a fetched
file; the returned `total` is the number of the valid permissions (not the
input length); and the returned `cleaned` counter is the constant 0. -/
theorem sync_permissions_write_filtering (failPermIds : List String) (db : DB)
    (permissions : List DrivePermissionRow) (files : List DriveFileData) :
    (syncDrivePermissions failPermIds db permissions files).total
      = (permissions.filter
          (fun p => decide (p.fileId ∈ files.map (fun f => f.id)))).length ∧
    (syncDrivePermissions failPermIds db permissions files).cleaned = 0 ∧
    (∀ q ∈ (syncDrivePermissions failPermIds db permissions files).db.perms,
      q ∈ db.perms ∨ q.fileId ∈ files.map (fun f => f.id)) := by
  refine ⟨rfl, rfl, ?_⟩
  intro q hq
  simp only [syncDrivePermissions] at hq
  have hvalid : ∀ p ∈ permissions.filter
      (fun p => decide (p.fileId ∈ files.map (fun f => f.id))),
      p.fileId ∈ files.map (fun f => f.id) := by
    intro p hp
    have := List.of_mem_filter hp
    exact of_decide_eq_true this
  exact syncDrivePermissions_fold_writes failPermIds (files.map (fun f => f.id))
    (permissions.filter (fun p => decide (p.fileId ∈ files.map (fun f => f.id))))
    (db, { db := db, upserted := 0, updated := 0, skipped := 0, errors := 0,
           cleaned := 0, total := 0 })
    hvalid (fun q hq => hq) q hq

/-- Concrete instance of C10: of two incoming permissions, only the one
referencing the fetched file is persisted; `total` counts only it and
`cleaned` is 0. -/
theorem sync_permissions_write_filtering_witness :
    (syncDrivePermissions [] { files := [], perms := [] }
      [toDrivePermissionRow "A" exPermRaw,
       { toDrivePermissionRow "Z" exPermRaw with id := "perm2" }]
      [exFile]).total = 1 ∧
    (syncDrivePermissions [] { files := [], perms := [] }
      [toDrivePermissionRow "A" exPermRaw,
       { toDrivePermissionRow "Z" exPermRaw with id := "perm2" }]
      [exFile]).cleaned = 0 ∧
    ∀ q ∈ (syncDrivePermissions [] { files := [], perms := [] }
      [toDrivePermissionRow "A" exPermRaw,
       { toDrivePermissionRow "Z" exPermRaw with id := "perm2" }]
      [exFile]).db.perms, q.fileId = "A" := by
  have h := sync_permissions_write_filtering [] { files := [], perms := [] }
    [toDrivePermissionRow "A" exPermRaw,
     { toDrivePermissionRow "Z" exPermRaw with id := "perm2" }]
    [exFile]
  refine ⟨?_, h.2.1, ?_⟩
  · rw [h.1]; decide
  · intro q hq
    rcases h.2.2 q hq with hin | hv
    · exact (List.not_mem_nil q hin).elim
    · simpa using hv

/-! ### C8 — bounded batches with per-record failure isolation -/

/-- Concatenating the slices produced by the batching loop gives back the
input list, provided the fuel covers its length. -/
theorem chunksAux_flatten {α : Type} (n : Nat) (hn : 0 < n) :
    ∀ (fuel : Nat) (l : List α), l.length ≤ fuel → (chunksAux n fuel l).flatten = l := by
  intro fuel
  induction fuel with
  | zero =>
      intro l hl
      have h0 : l = [] := List.length_eq_zero.mp (Nat.le_zero.mp hl)
      subst h0
      rfl
  | succ fuel ih =>
      intro l hl
      cases l with
      | nil => rfl
      | cons x xs =>
          have hd : ((x :: xs).drop n).length ≤ fuel := by
            rw [List.length_drop]
            have : (x :: xs).length ≤ fuel + 1 := hl
            have hlen : (x :: xs).length = xs.length + 1 := rfl
            omega
          calc (chunksAux n (fuel + 1) (x :: xs)).flatten
              = (x :: xs).take n ++ (chunksAux n fuel ((x :: xs).drop n)).flatten := rfl
            _ = (x :: xs).take n ++ (x :: xs).drop n := by rw [ih _ hd]
            _ = x :: xs := List.take_append_drop n (x :: xs)

/-- Every slice produced by the batching loop has at most `n` records. -/
theorem chunksAux_length_le {α : Type} (n : Nat) :
    ∀ (fuel : Nat) (l : List α), ∀ b ∈ chunksAux n fuel l, b.length ≤ n := by
  intro fuel
  induction fuel with
  | zero => intro l b hb; cases hb
  | succ fuel ih =>
      intro l b hb
      cases l with
      | nil => cases hb
      | cons x xs =>
          rcases List.mem_cons.mp hb with h | h
          · rw [h, List.length_take]
            exact min_le_left _ _
          · exact ih _ b h

/-- The per-record branch of `processFilesBatch`: a record in the failure set
only increments `errors`; any other record increments `processedFiles` and
leaves `errors` alone. -/
theorem processOneFile_counters (failFileIds : List String) (N : Nat)
    (st : FileSyncState) (f : DriveFileData) :
    ((processOneFile failFileIds N st f).1.errors
        = st.errors + (if f.id ∈ failFileIds then 1 else 0)) ∧
    ((processOneFile failFileIds N st f).1.processedFiles
        = st.processedFiles + (if f.id ∈ failFileIds then 0 else 1)) := by
  by_cases hf : f.id ∈ failFileIds
  · simp [processOneFile, hf]
  · simp only [processOneFile, if_neg hf]
    cases hm : st.db.findFile f.id with
    | none => simp [hf]
    | some ex =>
        by_cases hc : fileHasChanges ex (toDriveFileRow f) = true <;> simp [hm, hc, hf]

/-- Running one batch transaction adds one error per failing record and one
processed file per non-failing record — a failure never aborts the rest of
the batch. -/
theorem runFileBatch_counters (failFileIds : List String) (N : Nat) :
    ∀ (batch : List DriveFileData) (acc : FileSyncState × List ProgressEvent),
      ((runFileBatch failFileIds N acc batch).1.errors
        = acc.1.errors
          + (batch.filter (fun f => decide (f.id ∈ failFileIds))).length) ∧
      ((runFileBatch failFileIds N acc batch).1.processedFiles
        = acc.1.processedFiles
          + (batch.filter (fun f => decide (f.id ∉ failFileIds))).length) := by
  intro batch
  induction batch with
  | nil => intro acc; simp [runFileBatch]
  | cons f rest ih =>
      intro acc
      have hstep : runFileBatch failFileIds N acc (f :: rest)
          = runFileBatch failFileIds N (stepFile failFileIds N acc f) rest := rfl
      rw [hstep]
      rcases ih (stepFile failFileIds N acc f) with ⟨he, hp⟩
      have hse : (stepFile failFileIds N acc f).1.errors
          = acc.1.errors + (if f.id ∈ failFileIds then 1 else 0) :=
        (processOneFile_counters failFileIds N acc.1 f).1
      have hsp : (stepFile failFileIds N acc f).1.processedFiles
          = acc.1.processedFiles + (if f.id ∈ failFileIds then 0 else 1) :=
        (processOneFile_counters failFileIds N acc.1 f).2
      constructor
      · rw [he, hse, List.filter_cons]
        by_cases hf : f.id ∈ failFileIds <;> simp [hf] <;> omega
      · rw [hp, hsp, List.filter_cons]
        by_cases hf : f.id ∈ failFileIds <;> simp [hf] <;> omega

/-- **C8.** The file-persistence phase slices the fetched files, in
submission order, into consecutive batches of at most 10 records whose
concatenation is the original list; it executes the batches in order, one
transaction per batch (`processFilesBatch` is literally the fold of the
single-transaction `runFileBatch` over those slices); and within a batch a
failing record is caught and counted as one error while every remaining
record of the batch is still processed. -/
theorem bounded_batches_with_isolation (failFileIds : List String) (N : Nat)
    (st : FileSyncState) (files batch : List DriveFileData)
    (acc : FileSyncState × List ProgressEvent) :
    ((chunks 10 files).flatten = files) ∧
    (∀ b ∈ chunks 10 files, b.length ≤ 10) ∧
    (processFilesBatch failFileIds N st files
      = (chunks 10 files).foldl (runFileBatch failFileIds N) (st, [])) ∧
    ((runFileBatch failFileIds N acc batch).1.errors
      = acc.1.errors + (batch.filter (fun f => decide (f.id ∈ failFileIds))).length) ∧
    ((runFileBatch failFileIds N acc batch).1.processedFiles
      = acc.1.processedFiles
        + (batch.filter (fun f => decide (f.id ∉ failFileIds))).length) := by
  refine ⟨chunksAux_flatten 10 (by omega) files.length files le_rfl,
    chunksAux_length_le 10 files.length files, rfl,
    (runFileBatch_counters failFileIds N batch acc).1,
    (runFileBatch_counters failFileIds N batch acc).2⟩

/-- A batch with one failing record among three. -/
def exBatch : List DriveFileData :=
  [exFile, { exFile with id := "BAD" }, { exFile with id := "C" }]

/-- Concrete instance of C8: 25 files slice into batches of 10/10/5 whose
concatenation is the input, and a batch with one failing record finishes
with one error and the two other records processed. -/
theorem bounded_batches_with_isolation_witness :
    ((chunks 10 (List.replicate 25 exFile)).flatten = List.replicate 25 exFile) ∧
    ((chunks 10 (List.replicate 25 exFile)).map List.length = [10, 10, 5]) ∧
    ((runFileBatch ["BAD"] 3
        ({ db := { files := [], perms := [] }, processedFiles := 0, errors := 0,
           createdOps := 0, updatedOps := 0, skippedOps := 0 }, []) exBatch).1.errors = 1) ∧
    ((runFileBatch ["BAD"] 3
        ({ db := { files := [], perms := [] }, processedFiles := 0, errors := 0,
           createdOps := 0, updatedOps := 0, skippedOps := 0 }, []) exBatch).1.processedFiles
      = 2) := by
  have h := bounded_batches_with_isolation ["BAD"] 3
    { db := { files := [], perms := [] }, processedFiles := 0, errors := 0,
      createdOps := 0, updatedOps := 0, skippedOps := 0 }
    (List.replicate 25 exFile) exBatch
    ({ db := { files := [], perms := [] }, processedFiles := 0, errors := 0,
       createdOps := 0, updatedOps := 0, skippedOps := 0 }, [])
  refine ⟨h.1, by decide, ?_, ?_⟩
  · rw [h.2.2.2.1]; decide
  · rw [h.2.2.2.2]; decide

/-! ### C7 — per-entry grant-listing failure isolation -/

/-- With no per-record write failures injected, an inner permission-loop
step never touches the `errors` counter. -/
theorem processOnePermission_errors_nofail (fid : String) (st : PermSyncState)
    (p : RawPermission) :
    (processOnePermission [] fid st p).errors = st.errors := by
  by_cases h1 : p.id ∈ st.processedPermIds
  · simp [processOnePermission, h1]
  · simp only [processOnePermission, if_neg h1, List.not_mem_nil, if_false]
    cases hm : st.db.findPerm p.id with
    | none => simp [hm]
    | some ex =>
        by_cases hc : permHasChanges ex (toDrivePermissionRow fid p) = true <;> simp [hm, hc]

/-- Folding the inner permission loop never touches `errors` when no write
failure is injected. -/
theorem foldPerms_errors_nofail (fid : String) :
    ∀ (ps : List RawPermission) (st : PermSyncState),
      (ps.foldl (processOnePermission [] fid) st).errors = st.errors := by
  intro ps
  induction ps with
  | nil => intro st; rfl
  | cons p rest ih =>
      intro st
      rw [List.foldl_cons, ih, processOnePermission_errors_nofail]

/-- A raw permission whose id is derived from the file id, used in concrete
grant scenarios. -/
def mkPermFor (fid : String) : RawPermission :=
  { id := "p" ++ fid, type := some "user", role := some "reader",
    emailAddress := some "u@x.com", domain := none, allowFileDiscovery := some false }

/-- The grant listing of the ten-entry scenario: listing for file `3` throws,
every other file has exactly one grant. -/
def permsOf10 : String → Option (List RawPermission) :=
  fun fid => if fid = "3" then none else some [mkPermFor fid]

/-- A minimal persisted file row with the given numeric id. -/
def mkRow (i : Nat) : DriveFileRow :=
  { id := toString i, name := "f" ++ toString i, mimeType := none, parents := none,
    size := none, modifiedTime := none, createdTime := none,
    isFolder := false, trashed := false }

/-- A store holding ten files and no permissions. -/
def db10 : DB := { files := (List.range 10).map mkRow, perms := [] }

/-- **C7 counterexample.** In the one-shot route, the grant listing of one of
ten entries throws; the failure is swallowed inside the catalog client
(`getFilePermissions` returns `[]`): the run completes, the other nine
entries' grants are persisted — but no error is counted anywhere: both error
counters of the run are 0, not 1 as the claim requires. -/
theorem grant_failure_isolation_counterexample :
    (postSync ((List.range 10).map (fun i =>
        ({ id := toString i, name := some ("f" ++ toString i), mimeType := none,
           parents := none, size := none, createdTime := none, modifiedTime := none,
           trashed := some false } : RawDriveFile)))
      (fun fid => if fid = "0" then none else some [mkPermFor fid])
      [] [] { files := [], perms := [] }).filesRes.errors = 0 ∧
    (postSync ((List.range 10).map (fun i =>
        ({ id := toString i, name := some ("f" ++ toString i), mimeType := none,
           parents := none, size := none, createdTime := none, modifiedTime := none,
           trashed := some false } : RawDriveFile)))
      (fun fid => if fid = "0" then none else some [mkPermFor fid])
      [] [] { files := [], perms := [] }).permsRes.errors = 0 ∧
    (postSync ((List.range 10).map (fun i =>
        ({ id := toString i, name := some ("f" ++ toString i), mimeType := none,
           parents := none, size := none, createdTime := none, modifiedTime := none,
           trashed := some false } : RawDriveFile)))
      (fun fid => if fid = "0" then none else some [mkPermFor fid])
      [] [] { files := [], perms := [] }).db.perms.length = 9 := by
  decide

/-- **C7 (amended).** In the paginated sync service a grant-listing failure
is caught and counted: over any file list the final error counter adds
exactly one error per file whose listing throws (and per-record write
failures aside, nothing else touches it); in the ten-entry scenario the run
finishes with `errors = 1` and the nine other entries' single grants all
persisted. In the one-shot service the failure is also caught and treated as
zero grants for that entry with the run continuing, but it is not counted. -/
theorem grant_failure_isolation (permsOf : String → Option (List RawPermission))
    (n : Nat) (fid0 : String) :
    (∀ (fids : List String) (i : Nat) (st : PermSyncState),
      (syncPermsLoop permsOf [] n i st fids).1.errors
        = st.errors + (fids.filter (fun fid => (permsOf fid).isNone)).length) ∧
    (permsOf fid0 = none → getFilePermissions permsOf fid0 = []) ∧
    ((syncAllPermissions permsOf10 [] db10 0).1.errors = 1 ∧
     (syncAllPermissions permsOf10 [] db10 0).1.processedPermissions = 9 ∧
     (syncAllPermissions permsOf10 [] db10 0).1.db.perms.map
        (fun q => q.id) = ["p0", "p1", "p2", "p4", "p5", "p6", "p7", "p8", "p9"]) := by
  refine ⟨?_, ?_, by decide, by decide, by decide⟩
  · intro fids
    induction fids with
    | nil => intro i st; simp [syncPermsLoop]
    | cons fid rest ih =>
        intro i st
        cases hp : permsOf fid with
        | none =>
            have : (syncPermsLoop permsOf [] n i st (fid :: rest)).1
                = (syncPermsLoop permsOf [] n (i + 1)
                    { st with errors := st.errors + 1 } rest).1 := by
              simp [syncPermsLoop, hp]
            rw [this, ih, List.filter_cons]
            simp [hp]
            omega
        | some perms =>
            have : (syncPermsLoop permsOf [] n i st (fid :: rest)).1
                = (syncPermsLoop permsOf [] n (i + 1)
                    (perms.foldl (processOnePermission [] fid)
                      { st with totalPermissions := st.totalPermissions + perms.length })
                    rest).1 := by
              simp [syncPermsLoop, hp]
            rw [this, ih, foldPerms_errors_nofail, List.filter_cons]
            simp [hp]
  · intro h
    simp [getFilePermissions, h]

/-- Concrete instance of C7 (amended): the general error-count formula
evaluated on the ten-entry scenario gives exactly one error, and a throwing
listing yields the empty grant list in the one-shot client. -/
theorem grant_failure_isolation_witness :
    (syncPermsLoop permsOf10 [] 10 0
      { db := db10, totalPermissions := 0, processedPermissions := 0, errors := 0,
        processedPermIds := [], createdOps := 0, updatedOps := 0, skippedOps := 0 }
      (db10.fileIds)).1.errors
      = 0 + ((db10.fileIds).filter (fun fid => (permsOf10 fid).isNone)).length ∧
    getFilePermissions permsOf10 "3" = [] := by
  have h := grant_failure_isolation permsOf10 10 "3"
  exact ⟨h.1 db10.fileIds 0
    { db := db10, totalPermissions := 0, processedPermissions := 0, errors := 0,
      processedPermIds := [], createdOps := 0, updatedOps := 0, skippedOps := 0 },
    h.2.1 (by decide)⟩

/-! ### C1 — pruning correctness -/

/-- Updating a file row by primary id leaves the id column unchanged. -/
theorem updateFile_fileIds (db : DB) (row : DriveFileRow) :
    (db.updateFile row).fileIds = db.fileIds := by
  simp only [DB.updateFile, DB.fileIds, List.map_map]
  apply List.map_congr_left
  intro r _
  by_cases h : r.id = row.id
  · simp [h]
  · simp [h]

/-- A found row is a member with the looked-up id. -/
theorem findFile_id_mem {db : DB} {id : String} {ex : DriveFileRow}
    (hm : db.findFile id = some ex) : ex ∈ db.files ∧ ex.id = id := by
  refine ⟨List.mem_of_find?_eq_some hm, ?_⟩
  have := List.find?_some hm
  exact of_decide_eq_true this

/-- One failure-free step of the one-shot file upsert: the resulting id
column holds exactly the previous ids plus the incoming id. -/
theorem syncDriveFilesStep_ids_nofail (a : DB × FileSyncResult)
    (f : DriveFileData) (id : String) :
    (id ∈ ((syncDriveFilesStep [] a f).1).fileIds ↔ (id ∈ a.1.fileIds ∨ id = f.id)) := by
  simp only [syncDriveFilesStep, List.not_mem_nil, if_false]
  cases hm : a.1.findFile f.id with
  | none =>
      simp [DB.createFile, DB.fileIds, serverFileRow]
  | some ex =>
      have hex : f.id ∈ a.1.fileIds := by
        rcases findFile_id_mem hm with ⟨hmem, hid⟩
        exact hid ▸ List.mem_map_of_mem (fun r => r.id) hmem
      by_cases hc : fileHasChanges ex (serverFileRow f) = true
      · simp only [hc, if_true]
        rw [updateFile_fileIds]
        constructor
        · exact Or.inl
        · rintro (h | h)
          · exact h
          · exact h ▸ hex
      · simp only [hc, if_false]
        constructor
        · exact Or.inl
        · rintro (h | h)
          · exact h
          · exact h ▸ hex

/-- The one-shot file upsert never touches the permission table. -/
theorem syncDriveFilesStep_perms (failFileIds : List String)
    (a : DB × FileSyncResult) (f : DriveFileData) :
    (syncDriveFilesStep failFileIds a f).1.perms = a.1.perms := by
  by_cases hf : f.id ∈ failFileIds
  · simp [syncDriveFilesStep, hf]
  · simp only [syncDriveFilesStep, if_neg hf]
    cases hm : a.1.findFile f.id with
    | none => simp [DB.createFile]
    | some ex =>
        by_cases hc : fileHasChanges ex (serverFileRow f) = true <;>
          simp [hm, hc, DB.updateFile]

/-- Folding the failure-free one-shot file upsert: the final id column is
the union of the previous ids and the incoming ids; the permission table is
untouched. -/
theorem syncDriveFiles_fold_ids :
    ∀ (files : List DriveFileData) (a : DB × FileSyncResult),
      (∀ id, id ∈ ((files.foldl (syncDriveFilesStep []) a).1).fileIds
        ↔ (id ∈ a.1.fileIds ∨ id ∈ files.map (fun f => f.id))) ∧
      ((files.foldl (syncDriveFilesStep []) a).1).perms = a.1.perms := by
  intro files
  induction files with
  | nil => intro a; simp
  | cons f rest ih =>
      intro a
      rw [List.foldl_cons]
      rcases ih (syncDriveFilesStep [] a f) with ⟨hi, hp⟩
      constructor
      · intro id
        rw [hi id, syncDriveFilesStep_ids_nofail a f id]
        simp only [List.map_cons, List.mem_cons]
        constructor
        · rintro ((h | h) | h)
          · exact Or.inl h
          · exact Or.inr (Or.inl h)
          · exact Or.inr (Or.inr h)
        · rintro (h | h | h)
          · exact Or.inl (Or.inl h)
          · exact Or.inl (Or.inr h)
          · exact Or.inr h
      · rw [hp, syncDriveFilesStep_perms]

/-- The one-shot permission upsert never touches the file table. -/
theorem syncDrivePermissionsStep_files (failPermIds : List String)
    (a : DB × PermUpsertResult) (p : DrivePermissionRow) :
    (syncDrivePermissionsStep failPermIds a p).1.files = a.1.files := by
  by_cases hf : p.id ∈ failPermIds
  · simp [syncDrivePermissionsStep, hf]
  · simp only [syncDrivePermissionsStep, if_neg hf]
    cases hm : a.1.findPerm p.id with
    | none => simp [DB.createPerm]
    | some ex =>
        by_cases hc : permHasChanges ex (serverPermRow p) = true <;>
          simp [hm, hc, DB.updatePerm]

/-- Folded version of the previous lemma. -/
theorem syncDrivePermissions_fold_files (failPermIds : List String) :
    ∀ (ps : List DrivePermissionRow) (a : DB × PermUpsertResult),
      ((ps.foldl (syncDrivePermissionsStep failPermIds) a).1).files = a.1.files := by
  intro ps
  induction ps with
  | nil => intro a; rfl
  | cons p rest ih =>
      intro a
      rw [List.foldl_cons, ih, syncDrivePermissionsStep_files]

/-- Membership in the id column of the pre-sync cleanup result. -/
theorem cleanupOrphanedRecords_ids (db : DB) (files : List DriveFileData)
    (id : String) :
    id ∈ (cleanupOrphanedRecords db files).fileIds
      ↔ (id ∈ db.fileIds ∧ id ∈ files.map (fun f => f.id)) := by
  simp only [cleanupOrphanedRecords, DB.fileIds]
  constructor
  · intro h
    rcases List.mem_map.mp h with ⟨r, hr, hid⟩
    have hmem := List.mem_of_mem_filter hr
    have hpred := List.of_mem_filter hr
    have hin : r.id ∈ files.map (fun f => f.id) := of_decide_eq_true hpred
    exact ⟨List.mem_map.mpr ⟨r, hmem, hid⟩, hid ▸ hin⟩
  · rintro ⟨h1, h2⟩
    rcases List.mem_map.mp h1 with ⟨r, hr, hid⟩
    exact List.mem_map.mpr
      ⟨r, List.mem_filter.mpr ⟨hr, decide_eq_true (hid ▸ h2)⟩, hid⟩

/-- Listing the one-shot catalog preserves the file ids. -/
theorem syncAllData_ids (catalog : List RawDriveFile) :
    (catalog.map listAllFilesMap).map (fun f => f.id) = catalog.map (fun r => r.id) := by
  rw [List.map_map]
  rfl

/-- The paginated service's per-file step never removes a persisted id. -/
theorem processOneFile_ids_mono (failFileIds : List String) (N : Nat)
    (st : FileSyncState) (f : DriveFileData) (id : String)
    (h : id ∈ st.db.fileIds) :
    id ∈ (processOneFile failFileIds N st f).1.db.fileIds := by
  by_cases hf : f.id ∈ failFileIds
  · simpa [processOneFile, hf] using h
  · simp only [processOneFile, if_neg hf]
    cases hm : st.db.findFile f.id with
    | none =>
        simp only [hm]
        simp [DB.createFile, DB.fileIds] at h ⊢
        exact Or.inl h
    | some ex =>
        by_cases hc : fileHasChanges ex (toDriveFileRow f) = true
        · simp only [hm, hc, if_true]
          simpa [updateFile_fileIds] using h
        · simpa [hm, hc] using h

/-- The paginated file phase never removes a persisted id. -/
theorem runFileBatch_ids_mono (failFileIds : List String) (N : Nat) :
    ∀ (batch : List DriveFileData) (acc : FileSyncState × List ProgressEvent)
      (id : String), id ∈ acc.1.db.fileIds →
      id ∈ (runFileBatch failFileIds N acc batch).1.db.fileIds := by
  intro batch
  induction batch with
  | nil => intro acc id h; exact h
  | cons f rest ih =>
      intro acc id h
      exact ih (stepFile failFileIds N acc f) id
        (processOneFile_ids_mono failFileIds N acc.1 f id h)

/-- Folding batches never removes a persisted id. -/
theorem foldBatches_ids_mono (failFileIds : List String) (N : Nat) :
    ∀ (bs : List (List DriveFileData)) (acc : FileSyncState × List ProgressEvent)
      (id : String), id ∈ acc.1.db.fileIds →
      id ∈ (bs.foldl (runFileBatch failFileIds N) acc).1.db.fileIds := by
  intro bs
  induction bs with
  | nil => intro acc id h; exact h
  | cons b rest ih =>
      intro acc id h
      rw [List.foldl_cons]
      exact ih _ id (runFileBatch_ids_mono failFileIds N b acc id h)

/-- Batched version of `runFileBatch_ids_mono`. -/
theorem processFilesBatch_ids_mono (failFileIds : List String) (N : Nat)
    (st : FileSyncState) (files : List DriveFileData) (id : String)
    (h : id ∈ st.db.fileIds) :
    id ∈ (processFilesBatch failFileIds N st files).1.db.fileIds :=
  foldBatches_ids_mono failFileIds N (chunks 10 files) (st, []) id h

/-- The permission phase of the paginated service never touches the file
table. -/
theorem processOnePermission_files (failPermIds : List String) (fid : String)
    (st : PermSyncState) (p : RawPermission) :
    (processOnePermission failPermIds fid st p).db.files = st.db.files := by
  by_cases h1 : p.id ∈ st.processedPermIds
  · simp [processOnePermission, h1]
  · by_cases h2 : p.id ∈ failPermIds
    · simp [processOnePermission, h1, h2]
    · simp only [processOnePermission, if_neg h1, if_neg h2]
      cases hm : st.db.findPerm p.id with
      | none => simp [hm, DB.createPerm]
      | some ex =>
          by_cases hc : permHasChanges ex (toDrivePermissionRow fid p) = true <;>
            simp [hm, hc, DB.updatePerm]

/-- Folded version of the previous lemma. -/
theorem foldPerms_files (failPermIds : List String) (fid : String) :
    ∀ (ps : List RawPermission) (st : PermSyncState),
      (ps.foldl (processOnePermission failPermIds fid) st).db.files = st.db.files := by
  intro ps
  induction ps with
  | nil => intro st; rfl
  | cons p rest ih =>
      intro st
      rw [List.foldl_cons, ih, processOnePermission_files]

/-- The whole permission loop of the paginated service never touches the
file table. -/
theorem syncPermsLoop_files (permsOf : String → Option (List RawPermission))
    (failPermIds : List String) (n : Nat) :
    ∀ (fids : List String) (i : Nat) (st : PermSyncState),
      (syncPermsLoop permsOf failPermIds n i st fids).1.db.files = st.db.files := by
  intro fids
  induction fids with
  | nil => intro i st; rfl
  | cons fid rest ih =>
      intro i st
      cases hp : permsOf fid with
      | none =>
          have : (syncPermsLoop permsOf failPermIds n i st (fid :: rest)).1
              = (syncPermsLoop permsOf failPermIds n (i + 1)
                  { st with errors := st.errors + 1 } rest).1 := by
            simp [syncPermsLoop, hp]
          rw [this, ih]
      | some perms =>
          have : (syncPermsLoop permsOf failPermIds n i st (fid :: rest)).1
              = (syncPermsLoop permsOf failPermIds n (i + 1)
                  (perms.foldl (processOnePermission failPermIds fid)
                    { st with totalPermissions := st.totalPermissions + perms.length })
                  rest).1 := by
            simp [syncPermsLoop, hp]
          rw [this, ih, foldPerms_files]

/-- The one-shot `syncDriveFiles` (failure-free): id column after = previous
ids plus incoming ids. -/
theorem syncDriveFiles_db_ids (db : DB) (files : List DriveFileData) (id : String) :
    id ∈ (syncDriveFiles [] db files).db.fileIds
      ↔ (id ∈ db.fileIds ∨ id ∈ files.map (fun f => f.id)) := by
  have h := (syncDriveFiles_fold_ids files
    (db, { db := db, upserted := 0, updated := 0, skipped := 0, errors := 0,
           total := 0 })).1 id
  simpa [syncDriveFiles] using h

/-- The one-shot `syncDriveFiles` (failure-free) leaves the permission table
unchanged. -/
theorem syncDriveFiles_db_perms (db : DB) (files : List DriveFileData) :
    (syncDriveFiles [] db files).db.perms = db.perms := by
  have h := (syncDriveFiles_fold_ids files
    (db, { db := db, upserted := 0, updated := 0, skipped := 0, errors := 0,
           total := 0 })).2
  simpa [syncDriveFiles] using h

/-- The one-shot `syncDrivePermissions` leaves the file table unchanged. -/
theorem syncDrivePermissions_db_files (failPermIds : List String) (db : DB)
    (ps : List DrivePermissionRow) (fs : List DriveFileData) :
    (syncDrivePermissions failPermIds db ps fs).db.files = db.files := by
  have h := syncDrivePermissions_fold_files failPermIds
    (ps.filter (fun p => decide (p.fileId ∈ fs.map (fun f => f.id))))
    (db, { db := db, upserted := 0, updated := 0, skipped := 0, errors := 0,
           cleaned := 0, total := 0 })
  simpa [syncDrivePermissions] using h

/-- Every row surviving `syncDrivePermissions` is pre-existing or references
a fetched file id. -/
theorem syncDrivePermissions_perms_valid (failPermIds : List String) (db : DB)
    (ps : List DrivePermissionRow) (fs : List DriveFileData) :
    ∀ q ∈ (syncDrivePermissions failPermIds db ps fs).db.perms,
      q ∈ db.perms ∨ q.fileId ∈ fs.map (fun f => f.id) := by
  intro q hq
  simp only [syncDrivePermissions] at hq
  refine syncDrivePermissions_fold_writes failPermIds (fs.map (fun f => f.id))
    (ps.filter (fun p => decide (p.fileId ∈ fs.map (fun f => f.id))))
    (db, { db := db, upserted := 0, updated := 0, skipped := 0, errors := 0,
           cleaned := 0, total := 0 })
    ?_ (fun q hq => hq) q hq
  intro p hp
  exact of_decide_eq_true (List.mem_filter.mp hp).2

/-- The paginated cleanup step touches only the permission table. -/
theorem cleanupOrphanedData_fileIds (db : DB) :
    (cleanupOrphanedData db).fileIds = db.fileIds := rfl

/-- The paginated permission phase leaves the file-id column unchanged. -/
theorem syncAllPermissions_fileIds (permsOf : String → Option (List RawPermission))
    (failPermIds : List String) (db : DB) (errors0 : Nat) :
    (syncAllPermissions permsOf failPermIds db errors0).1.db.fileIds = db.fileIds := by
  have h := syncPermsLoop_files permsOf failPermIds db.fileIds.length db.fileIds 0
    { db := db, totalPermissions := 0, processedPermissions := 0, errors := errors0,
      processedPermIds := [], createdOps := 0, updatedOps := 0, skippedOps := 0 }
  simp only [syncAllPermissions, DB.fileIds]
  rw [show (syncPermsLoop permsOf failPermIds (db.files.map (fun r => r.id)).length 0
      { db := db, totalPermissions := 0, processedPermissions := 0, errors := errors0,
        processedPermIds := [], createdOps := 0, updatedOps := 0, skippedOps := 0 }
      (db.files.map (fun r => r.id))).1.db.files = db.files from h]

/-- A persisted row and its grant that the remote no longer returns. -/
def permX : DrivePermissionRow :=
  { id := "px", fileId := "7", type := "user", role := "reader",
    emailAddress := none, domain := none, allowFileDiscovery := false }

/-- A store holding one file (id 7) and one grant for it. -/
def dbX : DB := { files := [mkRow 7], perms := [permX] }

/-- **C1 counterexample.** A successful paginated run against an empty
remote catalog (fetched id set `∅`) leaves the persisted entry `7` — which
is in `P − R` — and its grant fully in place: `cleanupOrphanedData` only
deletes permissions whose `fileId` matches no *persisted* file and never
deletes files, so the persisted set does not equal the fetched set. -/
theorem pruning_correctness_counterexample :
    (([] : List (List RawDriveFile)).flatten.map (fun r => r.id) = []) ∧
    (startSync [] (fun _ => some []) [] [] dbX).db.files = [mkRow 7] ∧
    (startSync [] (fun _ => some []) [] [] dbX).db.perms = [permX] := by
  decide

/-- **C1 (amended).** In the one-shot POST route the claim holds: after a
failure-free run the persisted file-id set equals the fetched id set exactly,
and every surviving grant references a fetched id (entries in `P − R` are
deleted together with their grants). The paginated service however prunes no
entries: every persisted file id survives its runs (only stale grants are
removed), so entries in `P − R` are not deleted there. -/
theorem pruning_correctness_amended
    (catalog : List RawDriveFile) (permsOf : String → Option (List RawPermission))
    (db : DB) (pages : List (List RawDriveFile))
    (permsOf2 : String → Option (List RawPermission))
    (failFileIds failPermIds : List String) (db2 : DB) :
    (∀ id, id ∈ (postSync catalog permsOf [] [] db).db.fileIds
        ↔ id ∈ catalog.map (fun r => r.id)) ∧
    (∀ q ∈ (postSync catalog permsOf [] [] db).db.perms,
        q.fileId ∈ catalog.map (fun r => r.id)) ∧
    (∀ id ∈ db2.fileIds,
        id ∈ (startSync pages permsOf2 failFileIds failPermIds db2).db.fileIds) := by
  refine ⟨?_, ?_, ?_⟩
  · intro id
    have hpr : (postSync catalog permsOf [] [] db).db.files
        = (syncDriveFiles []
            (cleanupOrphanedRecords db (catalog.map listAllFilesMap))
            (catalog.map listAllFilesMap)).db.files := by
      simp only [postSync, syncAllData]
      exact syncDrivePermissions_db_files _ _ _ _
    have hios : (postSync catalog permsOf [] [] db).db.fileIds
        = (syncDriveFiles []
            (cleanupOrphanedRecords db (catalog.map listAllFilesMap))
            (catalog.map listAllFilesMap)).db.fileIds := by
      unfold DB.fileIds
      rw [hpr]
    rw [hios, syncDriveFiles_db_ids, cleanupOrphanedRecords_ids, syncAllData_ids]
    constructor
    · rintro (⟨_, h⟩ | h) <;> exact h
    · intro h
      exact Or.inr ((syncAllData_ids catalog).symm ▸ h)
  · intro q hq
    have hpr : (postSync catalog permsOf [] [] db).db.perms
        = (syncDrivePermissions []
            (syncDriveFiles []
              (cleanupOrphanedRecords db (catalog.map listAllFilesMap))
              (catalog.map listAllFilesMap)).db
            (syncAllData catalog permsOf).2 (catalog.map listAllFilesMap)).db.perms := by
      simp only [postSync, syncAllData]
    rw [hpr] at hq
    rcases syncDrivePermissions_perms_valid _ _ _ _ q hq with hin | hv
    · rw [syncDriveFiles_db_perms] at hin
      have hpred := List.of_mem_filter hin
      have : q.fileId ∈ (catalog.map listAllFilesMap).map (fun f => f.id) :=
        of_decide_eq_true hpred
      exact (syncAllData_ids catalog) ▸ this
    · exact (syncAllData_ids catalog) ▸ hv
  · intro id hid
    simp only [startSync]
    rw [cleanupOrphanedData_fileIds, syncAllPermissions_fileIds]
    exact processFilesBatch_ids_mono failFileIds _ _ _ id hid

/-- Concrete instance of C1 (amended): syncing catalog `[A]` over the store
holding `7` (and its grant) leaves exactly `A` in the one-shot route, while
the paginated run keeps `7` forever. -/
theorem pruning_correctness_amended_witness :
    ("A" ∈ (postSync [exRaw] (fun _ => some []) [] [] dbX).db.fileIds) ∧
    ("7" ∉ (postSync [exRaw] (fun _ => some []) [] [] dbX).db.fileIds) ∧
    ("7" ∈ (startSync [] (fun _ => some []) [] [] dbX).db.fileIds) := by
  have h := pruning_correctness_amended [exRaw] (fun _ => some []) dbX []
    (fun _ => some []) [] [] dbX
  refine ⟨(h.1 "A").mpr (by decide), ?_, h.2.2 "7" (by decide)⟩
  intro hmem
  have h7 := (h.1 "7").mp hmem
  revert h7
  decide

/-! ### C2 — idempotence -/

/-- The fetch loop drains the pagination: it returns the accumulator
followed by the concatenation of all pages. -/
theorem fetchLoop_acc (N : Nat) :
    ∀ (pages : List (List RawDriveFile)) (acc : List RawDriveFile),
      (fetchLoop N acc pages).1 = acc ++ pages.flatten := by
  intro pages
  induction pages with
  | nil => intro acc; simp [fetchLoop]
  | cons page rest ih =>
      intro acc
      show (fetchLoop N (acc ++ page) rest).1 = _
      rw [ih (acc ++ page), List.flatten_cons, List.append_assoc]

/-- `processFilesBatch` is the flat per-record loop: batching only groups
consecutive records into transactions. -/
theorem processFilesBatch_eq_flat (failFileIds : List String) (N : Nat)
    (st : FileSyncState) (files : List DriveFileData) :
    processFilesBatch failFileIds N st files
      = files.foldl (stepFile failFileIds N) (st, []) := by
  conv_rhs => rw [← chunksAux_flatten 10 (by omega) files.length files le_rfl]
  rw [List.foldl_flatten]
  rfl

/-- A record whose persisted row equals the incoming row is skipped: only
`skippedOps` and `processedFiles` move. -/
theorem processOneFile_skip (N : Nat) (st : FileSyncState) (f : DriveFileData)
    (h : st.db.findFile f.id = some (toDriveFileRow f)) :
    (processOneFile [] N st f).1
      = { st with skippedOps := st.skippedOps + 1,
                  processedFiles := st.processedFiles + 1 } := by
  simp [processOneFile, h, fileHasChanges]

/-- Folding the paginated file loop over records whose persisted rows equal
the incoming rows performs no create and no update: the store is unchanged
and every record is skipped. -/
theorem foldFiles_skip (N : Nat) :
    ∀ (files : List DriveFileData) (acc : FileSyncState × List ProgressEvent),
      (∀ f ∈ files, acc.1.db.findFile f.id = some (toDriveFileRow f)) →
      ((files.foldl (stepFile [] N) acc).1.db = acc.1.db ∧
       (files.foldl (stepFile [] N) acc).1.createdOps = acc.1.createdOps ∧
       (files.foldl (stepFile [] N) acc).1.updatedOps = acc.1.updatedOps ∧
       (files.foldl (stepFile [] N) acc).1.skippedOps
         = acc.1.skippedOps + files.length) := by
  intro files
  induction files with
  | nil => intro acc _; simp
  | cons f rest ih =>
      intro acc h
      have hf := h f (List.mem_cons_self _ _)
      have hstep : (stepFile [] N acc f).1
          = { acc.1 with skippedOps := acc.1.skippedOps + 1,
                         processedFiles := acc.1.processedFiles + 1 } :=
        processOneFile_skip N acc.1 f hf
      rw [List.foldl_cons]
      have hrest : ∀ g ∈ rest,
          (stepFile [] N acc f).1.db.findFile g.id = some (toDriveFileRow g) := by
        intro g hg
        rw [hstep]
        exact h g (List.mem_cons_of_mem _ hg)
      rcases ih (stepFile [] N acc f) hrest with ⟨h1, h2, h3, h4⟩
      rw [h1, h2, h3, h4, hstep]
      refine ⟨rfl, rfl, rfl, ?_⟩
      simp
      omega

/-- A permission whose persisted row equals the incoming defaulted row is
skipped: the store and the create/update counters are untouched. -/
theorem processOnePermission_skip (fid : String) (st : PermSyncState)
    (p : RawPermission)
    (h : st.db.findPerm p.id = some (toDrivePermissionRow fid p)) :
    ((processOnePermission [] fid st p).db = st.db ∧
     (processOnePermission [] fid st p).createdOps = st.createdOps ∧
     (processOnePermission [] fid st p).updatedOps = st.updatedOps) := by
  by_cases h1 : p.id ∈ st.processedPermIds
  · simp [processOnePermission, h1]
  · simp [processOnePermission, h1, h, permHasChanges]

/-- Folded version of the previous lemma. -/
theorem foldPerms_skip (fid : String) :
    ∀ (ps : List RawPermission) (st : PermSyncState),
      (∀ p ∈ ps, st.db.findPerm p.id = some (toDrivePermissionRow fid p)) →
      ((ps.foldl (processOnePermission [] fid) st).db = st.db ∧
       (ps.foldl (processOnePermission [] fid) st).createdOps = st.createdOps ∧
       (ps.foldl (processOnePermission [] fid) st).updatedOps = st.updatedOps) := by
  intro ps
  induction ps with
  | nil => intro st _; exact ⟨rfl, rfl, rfl⟩
  | cons p rest ih =>
      intro st h
      rw [List.foldl_cons]
      rcases processOnePermission_skip fid st p (h p (List.mem_cons_self _ _)) with
        ⟨hd, hc, hu⟩
      have hrest : ∀ q ∈ rest,
          (processOnePermission [] fid st p).db.findPerm q.id
            = some (toDrivePermissionRow fid q) := by
        intro q hq
        rw [hd]
        exact h q (List.mem_cons_of_mem _ hq)
      rcases ih (processOnePermission [] fid st p) hrest with ⟨h1, h2, h3⟩
      exact ⟨h1.trans hd, h2.trans hc, h3.trans hu⟩

/-- The permission loop over a store that already holds every listed grant
in defaulted form performs no create and no update and leaves the store
unchanged. -/
theorem syncPermsLoop_skip (permsOf : String → Option (List RawPermission))
    (n : Nat) :
    ∀ (fids : List String) (i : Nat) (st : PermSyncState),
      (∀ fid ∈ fids, ∀ p ∈ (permsOf fid).getD [],
        st.db.findPerm p.id = some (toDrivePermissionRow fid p)) →
      ((syncPermsLoop permsOf [] n i st fids).1.db = st.db ∧
       (syncPermsLoop permsOf [] n i st fids).1.createdOps = st.createdOps ∧
       (syncPermsLoop permsOf [] n i st fids).1.updatedOps = st.updatedOps) := by
  intro fids
  induction fids with
  | nil => intro i st _; exact ⟨rfl, rfl, rfl⟩
  | cons fid rest ih =>
      intro i st h
      have hrest0 : ∀ g ∈ rest, ∀ p ∈ (permsOf g).getD [],
          st.db.findPerm p.id = some (toDrivePermissionRow g p) :=
        fun g hg => h g (List.mem_cons_of_mem _ hg)
      cases hp : permsOf fid with
      | none =>
          have heq : (syncPermsLoop permsOf [] n i st (fid :: rest)).1
              = (syncPermsLoop permsOf [] n (i + 1)
                  { st with errors := st.errors + 1 } rest).1 := by
            simp [syncPermsLoop, hp]
          rw [heq]
          exact ih (i + 1) { st with errors := st.errors + 1 } hrest0
      | some perms =>
          have hthis : ∀ p ∈ perms,
              ({ st with totalPermissions := st.totalPermissions + perms.length }
                : PermSyncState).db.findPerm p.id
                = some (toDrivePermissionRow fid p) := by
            intro p hpp
            have := h fid (List.mem_cons_self _ _) p (by rw [hp]; exact hpp)
            exact this
          rcases foldPerms_skip fid perms
            { st with totalPermissions := st.totalPermissions + perms.length }
            hthis with ⟨hd, hc, hu⟩
          have heq : (syncPermsLoop permsOf [] n i st (fid :: rest)).1
              = (syncPermsLoop permsOf [] n (i + 1)
                  (perms.foldl (processOnePermission [] fid)
                    { st with totalPermissions := st.totalPermissions + perms.length })
                  rest).1 := by
            simp [syncPermsLoop, hp]
          rw [heq]
          have hrest : ∀ g ∈ rest, ∀ p ∈ (permsOf g).getD [],
              (perms.foldl (processOnePermission [] fid)
                { st with totalPermissions := st.totalPermissions + perms.length }).db.findPerm
                  p.id = some (toDrivePermissionRow g p) := by
            intro g hg p hpp
            rw [hd]
            exact hrest0 g hg p hpp
          rcases ih (i + 1) _ hrest with ⟨h1, h2, h3⟩
          exact ⟨h1.trans hd, h2.trans hc, h3.trans hu⟩

/-- Wrapper of the previous lemma for `syncAllPermissions`. -/
theorem syncAllPermissions_skip (permsOf : String → Option (List RawPermission))
    (db : DB) (errors0 : Nat)
    (h : ∀ fid ∈ db.fileIds, ∀ p ∈ (permsOf fid).getD [],
      db.findPerm p.id = some (toDrivePermissionRow fid p)) :
    ((syncAllPermissions permsOf [] db errors0).1.db = db ∧
     (syncAllPermissions permsOf [] db errors0).1.createdOps = 0 ∧
     (syncAllPermissions permsOf [] db errors0).1.updatedOps = 0) := by
  have := syncPermsLoop_skip permsOf db.fileIds.length db.fileIds 0
    { db := db, totalPermissions := 0, processedPermissions := 0, errors := errors0,
      processedPermIds := [], createdOps := 0, updatedOps := 0, skippedOps := 0 } h
  simpa [syncAllPermissions] using this

/-- One skipped step of the one-shot file upsert. -/
theorem syncDriveFilesStep_skip (a : DB × FileSyncResult) (f : DriveFileData)
    (h : a.1.findFile f.id = some (serverFileRow f)) :
    syncDriveFilesStep [] a f = (a.1, { a.2 with skipped := a.2.skipped + 1 }) := by
  simp [syncDriveFilesStep, h, fileHasChanges]

/-- Folding the one-shot file upsert over files already persisted in
defaulted form changes nothing but the skip counter. -/
theorem syncDriveFiles_fold_skip :
    ∀ (files : List DriveFileData) (a : DB × FileSyncResult),
      (∀ f ∈ files, a.1.findFile f.id = some (serverFileRow f)) →
      ((files.foldl (syncDriveFilesStep []) a).1 = a.1 ∧
       (files.foldl (syncDriveFilesStep []) a).2.upserted = a.2.upserted ∧
       (files.foldl (syncDriveFilesStep []) a).2.updated = a.2.updated ∧
       (files.foldl (syncDriveFilesStep []) a).2.skipped
         = a.2.skipped + files.length) := by
  intro files
  induction files with
  | nil => intro a _; simp
  | cons f rest ih =>
      intro a h
      rw [List.foldl_cons, syncDriveFilesStep_skip a f (h f (List.mem_cons_self _ _))]
      have hrest : ∀ g ∈ rest,
          ((a.1, { a.2 with skipped := a.2.skipped + 1 }) : DB × FileSyncResult).1.findFile
            g.id = some (serverFileRow g) :=
        fun g hg => h g (List.mem_cons_of_mem _ hg)
      rcases ih (a.1, { a.2 with skipped := a.2.skipped + 1 }) hrest with ⟨h1, h2, h3, h4⟩
      rw [h1, h2, h3, h4]
      refine ⟨rfl, rfl, rfl, ?_⟩
      simp
      omega

/-- One skipped step of the one-shot permission upsert. -/
theorem syncDrivePermissionsStep_skip (a : DB × PermUpsertResult)
    (p : DrivePermissionRow)
    (h : a.1.findPerm p.id = some (serverPermRow p)) :
    syncDrivePermissionsStep [] a p
      = (a.1, { a.2 with skipped := a.2.skipped + 1 }) := by
  simp [syncDrivePermissionsStep, h, permHasChanges]

/-- Folded version of the previous lemma. -/
theorem syncDrivePermissions_fold_skip :
    ∀ (ps : List DrivePermissionRow) (a : DB × PermUpsertResult),
      (∀ p ∈ ps, a.1.findPerm p.id = some (serverPermRow p)) →
      ((ps.foldl (syncDrivePermissionsStep []) a).1 = a.1 ∧
       (ps.foldl (syncDrivePermissionsStep []) a).2.upserted = a.2.upserted ∧
       (ps.foldl (syncDrivePermissionsStep []) a).2.updated = a.2.updated) := by
  intro ps
  induction ps with
  | nil => intro a _; exact ⟨rfl, rfl, rfl⟩
  | cons p rest ih =>
      intro a h
      rw [List.foldl_cons, syncDrivePermissionsStep_skip a p (h p (List.mem_cons_self _ _))]
      have hrest : ∀ q ∈ rest,
          ((a.1, { a.2 with skipped := a.2.skipped + 1 }) : DB × PermUpsertResult).1.findPerm
            q.id = some (serverPermRow q) :=
        fun q hq => h q (List.mem_cons_of_mem _ hq)
      rcases ih (a.1, { a.2 with skipped := a.2.skipped + 1 }) hrest with ⟨h1, h2, h3⟩
      exact ⟨h1, h2, h3⟩

/-- **C2.** Idempotence: a sync run against an unchanged remote catalog —
the persisted state already equal to the (defaulted) fetched state — performs
zero create operations and zero update operations; every file and every
permission change-check resolves to skip. This holds for the paginated
engine (`startSync`: all four create/update counters are 0 and every fetched
file is skipped) and for the one-shot route (`syncDriveFiles` /
`syncDrivePermissions`: 0 upserted, 0 updated, store unchanged). -/
theorem second_run_idempotent
    (pages : List (List RawDriveFile)) (permsOf : String → Option (List RawPermission))
    (db db2 db3 : DB) (files2 files3 : List DriveFileData)
    (perms3 : List DrivePermissionRow)
    (hfile : ∀ raw ∈ pages.flatten,
      db.findFile raw.id = some (toDriveFileRow (toDriveFileData raw)))
    (hperm : ∀ fid ∈ db.fileIds, ∀ p ∈ (permsOf fid).getD [],
      db.findPerm p.id = some (toDrivePermissionRow fid p))
    (hfile2 : ∀ f ∈ files2, db2.findFile f.id = some (serverFileRow f))
    (hperm3 : ∀ p ∈ perms3, p.fileId ∈ files3.map (fun f => f.id) →
      db3.findPerm p.id = some (serverPermRow p)) :
    ((startSync pages permsOf [] [] db).filesCreated = 0 ∧
     (startSync pages permsOf [] [] db).filesUpdated = 0 ∧
     (startSync pages permsOf [] [] db).filesSkipped = pages.flatten.length ∧
     (startSync pages permsOf [] [] db).permsCreated = 0 ∧
     (startSync pages permsOf [] [] db).permsUpdated = 0) ∧
    ((syncDriveFiles [] db2 files2).upserted = 0 ∧
     (syncDriveFiles [] db2 files2).updated = 0 ∧
     (syncDriveFiles [] db2 files2).skipped = files2.length ∧
     (syncDriveFiles [] db2 files2).db = db2) ∧
    ((syncDrivePermissions [] db3 perms3 files3).upserted = 0 ∧
     (syncDrivePermissions [] db3 perms3 files3).updated = 0 ∧
     (syncDrivePermissions [] db3 perms3 files3).db = db3) := by
  refine ⟨?_, ?_, ?_⟩
  · have hfiles : (fetchLoop (getTotalFileCount pages).1 [] pages).1 = pages.flatten := by
      simpa using fetchLoop_acc (getTotalFileCount pages).1 pages []
    have hyp : ∀ f ∈ (fetchLoop (getTotalFileCount pages).1 [] pages).1.map toDriveFileData,
        ({ db := db, processedFiles := 0, errors := 0, createdOps := 0,
           updatedOps := 0, skippedOps := 0 } : FileSyncState).db.findFile f.id
          = some (toDriveFileRow f) := by
      intro f hf
      rw [hfiles] at hf
      rcases List.mem_map.mp hf with ⟨raw, hraw, rfl⟩
      exact hfile raw hraw
    have hb := processFilesBatch_eq_flat [] (getTotalFileCount pages).1
      { db := db, processedFiles := 0, errors := 0, createdOps := 0,
        updatedOps := 0, skippedOps := 0 }
      ((fetchLoop (getTotalFileCount pages).1 [] pages).1.map toDriveFileData)
    rcases foldFiles_skip (getTotalFileCount pages).1
      ((fetchLoop (getTotalFileCount pages).1 [] pages).1.map toDriveFileData)
      ({ db := db, processedFiles := 0, errors := 0, createdOps := 0,
         updatedOps := 0, skippedOps := 0 }, []) hyp with ⟨hd, hc, hu, hs⟩
    refine ⟨?_, ?_, ?_, ?_, ?_⟩
    · show (processFilesBatch [] (getTotalFileCount pages).1
          { db := db, processedFiles := 0, errors := 0, createdOps := 0,
            updatedOps := 0, skippedOps := 0 }
          ((fetchLoop (getTotalFileCount pages).1 [] pages).1.map
            toDriveFileData)).1.createdOps = 0
      rw [hb]
      exact hc
    · show (processFilesBatch [] (getTotalFileCount pages).1
          { db := db, processedFiles := 0, errors := 0, createdOps := 0,
            updatedOps := 0, skippedOps := 0 }
          ((fetchLoop (getTotalFileCount pages).1 [] pages).1.map
            toDriveFileData)).1.updatedOps = 0
      rw [hb]
      exact hu
    · show (processFilesBatch [] (getTotalFileCount pages).1
          { db := db, processedFiles := 0, errors := 0, createdOps := 0,
            updatedOps := 0, skippedOps := 0 }
          ((fetchLoop (getTotalFileCount pages).1 [] pages).1.map
            toDriveFileData)).1.skippedOps = pages.flatten.length
      rw [hb, hs]
      simp [hfiles, Function.comp_def]
    · show (syncAllPermissions permsOf []
          (processFilesBatch [] (getTotalFileCount pages).1
            { db := db, processedFiles := 0, errors := 0, createdOps := 0,
              updatedOps := 0, skippedOps := 0 }
            ((fetchLoop (getTotalFileCount pages).1 [] pages).1.map
              toDriveFileData)).1.db
          (processFilesBatch [] (getTotalFileCount pages).1
            { db := db, processedFiles := 0, errors := 0, createdOps := 0,
              updatedOps := 0, skippedOps := 0 }
            ((fetchLoop (getTotalFileCount pages).1 [] pages).1.map
              toDriveFileData)).1.errors).1.createdOps = 0
      rw [hb, hd]
      exact (syncAllPermissions_skip permsOf db _ hperm).2.1
    · show (syncAllPermissions permsOf []
          (processFilesBatch [] (getTotalFileCount pages).1
            { db := db, processedFiles := 0, errors := 0, createdOps := 0,
              updatedOps := 0, skippedOps := 0 }
            ((fetchLoop (getTotalFileCount pages).1 [] pages).1.map
              toDriveFileData)).1.db
          (processFilesBatch [] (getTotalFileCount pages).1
            { db := db, processedFiles := 0, errors := 0, createdOps := 0,
              updatedOps := 0, skippedOps := 0 }
            ((fetchLoop (getTotalFileCount pages).1 [] pages).1.map
              toDriveFileData)).1.errors).1.updatedOps = 0
      rw [hb, hd]
      exact (syncAllPermissions_skip permsOf db _ hperm).2.2
  · rcases syncDriveFiles_fold_skip files2
      (db2, { db := db2, upserted := 0, updated := 0, skipped := 0, errors := 0,
              total := 0 }) hfile2 with ⟨h1, h2, h3, h4⟩
    refine ⟨?_, ?_, ?_, ?_⟩
    · show (files2.foldl (syncDriveFilesStep [])
          (db2, { db := db2, upserted := 0, updated := 0, skipped := 0, errors := 0,
                  total := 0 })).2.upserted = 0
      rw [h2]
    · show (files2.foldl (syncDriveFilesStep [])
          (db2, { db := db2, upserted := 0, updated := 0, skipped := 0, errors := 0,
                  total := 0 })).2.updated = 0
      rw [h3]
    · show (files2.foldl (syncDriveFilesStep [])
          (db2, { db := db2, upserted := 0, updated := 0, skipped := 0, errors := 0,
                  total := 0 })).2.skipped = files2.length
      rw [h4]
      simp
    · show (files2.foldl (syncDriveFilesStep [])
          (db2, { db := db2, upserted := 0, updated := 0, skipped := 0, errors := 0,
                  total := 0 })).1 = db2
      rw [h1]
  · have hval : ∀ p ∈ perms3.filter
        (fun p => decide (p.fileId ∈ files3.map (fun f => f.id))),
        db3.findPerm p.id = some (serverPermRow p) := by
      intro p hp
      have hm := List.mem_filter.mp hp
      exact hperm3 p hm.1 (of_decide_eq_true hm.2)
    rcases syncDrivePermissions_fold_skip
      (perms3.filter (fun p => decide (p.fileId ∈ files3.map (fun f => f.id))))
      (db3, { db := db3, upserted := 0, updated := 0, skipped := 0, errors := 0,
              cleaned := 0, total := 0 }) hval with ⟨h1, h2, h3⟩
    refine ⟨?_, ?_, ?_⟩
    · show ((perms3.filter
          (fun p => decide (p.fileId ∈ files3.map (fun f => f.id)))).foldl
          (syncDrivePermissionsStep [])
          (db3, { db := db3, upserted := 0, updated := 0, skipped := 0, errors := 0,
                  cleaned := 0, total := 0 })).2.upserted = 0
      rw [h2]
    · show ((perms3.filter
          (fun p => decide (p.fileId ∈ files3.map (fun f => f.id)))).foldl
          (syncDrivePermissionsStep [])
          (db3, { db := db3, upserted := 0, updated := 0, skipped := 0, errors := 0,
                  cleaned := 0, total := 0 })).2.updated = 0
      rw [h3]
    · show ((perms3.filter
          (fun p => decide (p.fileId ∈ files3.map (fun f => f.id)))).foldl
          (syncDrivePermissionsStep [])
          (db3, { db := db3, upserted := 0, updated := 0, skipped := 0, errors := 0,
                  cleaned := 0, total := 0 })).1 = db3
      rw [h1]

/-- The already-persisted permission row of the idempotence witness. -/
def permA : DrivePermissionRow := toDrivePermissionRow "A" exPermRaw

/-- A store equal to what a first paginated run over `[[exRaw]]` persists. -/
def dbW : DB :=
  { files := [toDriveFileRow exFile], perms := [permA] }

/-- A store equal to what a first one-shot run over `[exFile]` persists. -/
def db2W : DB := { files := [serverFileRow exFile], perms := [] }

/-- A permission store equal to what a first one-shot run persists. -/
def db3W : DB := { files := [], perms := [permA] }

/-- Concrete instance of C2: re-running both engines over an unchanged
one-file catalog performs zero creates and zero updates. -/
theorem second_run_idempotent_witness :
    (startSync [[exRaw]] (fun _ => some [exPermRaw]) [] [] dbW).filesCreated = 0 ∧
    (startSync [[exRaw]] (fun _ => some [exPermRaw]) [] [] dbW).filesUpdated = 0 ∧
    (startSync [[exRaw]] (fun _ => some [exPermRaw]) [] [] dbW).permsCreated = 0 ∧
    (startSync [[exRaw]] (fun _ => some [exPermRaw]) [] [] dbW).permsUpdated = 0 ∧
    (syncDriveFiles [] db2W [exFile]).updated = 0 ∧
    (syncDrivePermissions [] db3W [permA] [exFile]).updated = 0 := by
  have h := second_run_idempotent [[exRaw]] (fun _ => some [exPermRaw]) dbW db2W db3W
    [exFile] [exFile] [permA] (by decide) (by decide) (by decide) (by decide)
  exact ⟨h.1.1, h.1.2.1, h.1.2.2.2.1, h.1.2.2.2.2, h.2.1.2.1, h.2.2.2.1⟩

/-! ### C3 — monotonic progress -/

/-- Executable non-decreasing check on a percent sequence. -/
def nondecreasing : List ℚ → Bool
  | [] => true
  | [_] => true
  | a :: b :: rest => decide (a ≤ b) && nondecreasing (b :: rest)

/-- The executable check coincides with `List.Chain'`. -/
theorem nondecreasing_iff_chain' :
    ∀ l : List ℚ, nondecreasing l = true ↔ List.Chain' (· ≤ ·) l := by
  intro l
  match l with
  | [] => simp [nondecreasing, List.chain'_nil]
  | [a] => simp [nondecreasing, List.chain'_singleton]
  | a :: b :: rest =>
      rw [List.chain'_cons, ← nondecreasing_iff_chain' (b :: rest)]
      simp [nondecreasing]

/-- Division by a non-negative rational is monotone (degenerately constant
at zero). -/
theorem div_mono_nonneg {a b c : ℚ} (h : a ≤ b) (hc : 0 ≤ c) : a / c ≤ b / c := by
  rw [div_eq_mul_inv, div_eq_mul_inv]
  exact mul_le_mul_of_nonneg_right h (inv_nonneg.mpr hc)

/-- Monotonicity of the counting-phase percent in the cumulative count. -/
theorem countPct_mono {a b : Nat} (h : a ≤ b) :
    min ((a : ℚ) / 1000 * 100) 5 ≤ min ((b : ℚ) / 1000 * 100) 5 := by
  refine min_le_min ?_ le_rfl
  exact mul_le_mul_of_nonneg_right
    (div_mono_nonneg (by exact_mod_cast h) (by norm_num)) (by norm_num)

/-- Monotonicity of the fetch-phase percent in the cumulative fetch count. -/
theorem fetchPct_mono (N : Nat) {a b : Nat} (h : a ≤ b) :
    min ((a : ℚ) / (N : ℚ) * 60) 60 ≤ min ((b : ℚ) / (N : ℚ) * 60) 60 := by
  refine min_le_min ?_ le_rfl
  exact mul_le_mul_of_nonneg_right
    (div_mono_nonneg (by exact_mod_cast h) (Nat.cast_nonneg N)) (by norm_num)

/-- Monotonicity of the file-phase percent in the processed count. -/
theorem filePct_mono (N : Nat) {a b : Nat} (h : a ≤ b) :
    min (60 + (a : ℚ) / (N : ℚ) * 35) 95 ≤ min (60 + (b : ℚ) / (N : ℚ) * 35) 95 := by
  refine min_le_min ?_ le_rfl
  refine add_le_add_left ?_ 60
  exact mul_le_mul_of_nonneg_right
    (div_mono_nonneg (by exact_mod_cast h) (Nat.cast_nonneg N)) (by norm_num)

/-- Monotonicity of the permission-phase percent in the loop index. -/
theorem permPct_mono (n : Nat) {a b : Nat} (h : a ≤ b) :
    min (95 + (a : ℚ) / (n : ℚ) * 5) 100 ≤ min (95 + (b : ℚ) / (n : ℚ) * 5) 100 := by
  refine min_le_min ?_ le_rfl
  refine add_le_add_left ?_ 95
  exact mul_le_mul_of_nonneg_right
    (div_mono_nonneg (by exact_mod_cast h) (Nat.cast_nonneg n)) (by norm_num)

/-- The file-phase percent is at least 60. -/
theorem filePct_ge (N d : Nat) : (60 : ℚ) ≤ min (60 + (d : ℚ) / (N : ℚ) * 35) 95 := by
  refine le_min ?_ (by norm_num)
  have : (0 : ℚ) ≤ (d : ℚ) / (N : ℚ) * 35 := by positivity
  linarith

/-- The permission-phase percent is at least 95. -/
theorem permPct_ge (n i : Nat) : (95 : ℚ) ≤ min (95 + (i : ℚ) / (n : ℚ) * 5) 100 := by
  refine le_min ?_ (by norm_num)
  have : (0 : ℚ) ≤ (i : ℚ) / (n : ℚ) * 5 := by positivity
  linarith

/-- Gluing two non-decreasing percent blocks separated by a bound. -/
theorem chain'_append_of_bounds {l1 l2 : List ℚ} (b : ℚ)
    (h1 : List.Chain' (· ≤ ·) l1) (h2 : List.Chain' (· ≤ ·) l2)
    (hb1 : ∀ x ∈ l1, x ≤ b) (hb2 : ∀ x ∈ l2, b ≤ x) :
    List.Chain' (· ≤ ·) (l1 ++ l2) := by
  rw [List.chain'_append]
  refine ⟨h1, h2, ?_⟩
  intro x hx y hy
  exact le_trans (hb1 x (List.mem_of_mem_getLast? hx)) (hb2 y (List.mem_of_mem_head? hy))

/-- The counting loop emits non-decreasing percents, all at most 5 and all
at least the percent of the starting cumulative count. -/
theorem countingLoop_mono :
    ∀ (pages : List (List RawDriveFile)) (cum : Nat),
      List.Chain' (· ≤ ·) ((countingLoop cum pages).2.map (fun e => e.percent)) ∧
      (∀ q ∈ (countingLoop cum pages).2.map (fun e => e.percent),
        min ((cum : ℚ) / 1000 * 100) 5 ≤ q ∧ q ≤ 5) := by
  intro pages
  induction pages with
  | nil =>
      intro cum
      exact ⟨List.chain'_nil, by intro q hq; cases hq⟩
  | cons page rest ih =>
      intro cum
      have hshape : (countingLoop cum (page :: rest)).2
          = ⟨"page_loaded", cum + page.length, 0,
              min (((cum + page.length : Nat) : ℚ) / 1000 * 100) 5⟩
            :: (countingLoop (cum + page.length) rest).2 := rfl
      rcases ih (cum + page.length) with ⟨hch, hbd⟩
      constructor
      · rw [hshape, List.map_cons]
        refine List.chain'_cons'.mpr ⟨?_, hch⟩
        intro y hy
        have hmem := List.mem_of_mem_head? hy
        exact (hbd y hmem).1
      · rw [hshape, List.map_cons]
        intro q hq
        rcases List.mem_cons.mp hq with h | h
        · subst h
          exact ⟨countPct_mono (Nat.le_add_right cum page.length), min_le_right _ _⟩
        · rcases hbd q h with ⟨hl, hr⟩
          exact ⟨le_trans (countPct_mono (Nat.le_add_right cum page.length)) hl, hr⟩

/-- The fetch loop emits non-decreasing percents, all at most 60 and all at
least the percent of the starting accumulator length. -/
theorem fetchLoop_mono (N : Nat) :
    ∀ (pages : List (List RawDriveFile)) (acc : List RawDriveFile),
      List.Chain' (· ≤ ·) ((fetchLoop N acc pages).2.map (fun e => e.percent)) ∧
      (∀ q ∈ (fetchLoop N acc pages).2.map (fun e => e.percent),
        min ((acc.length : ℚ) / (N : ℚ) * 60) 60 ≤ q ∧ q ≤ 60) := by
  intro pages
  induction pages with
  | nil =>
      intro acc
      exact ⟨List.chain'_nil, by intro q hq; cases hq⟩
  | cons page rest ih =>
      intro acc
      have hshape : (fetchLoop N acc (page :: rest)).2
          = ⟨"page_loaded", N, (acc ++ page).length,
              min ((((acc ++ page).length : Nat) : ℚ) / (N : ℚ) * 60) 60⟩
            :: (fetchLoop N (acc ++ page) rest).2 := rfl
      rcases ih (acc ++ page) with ⟨hch, hbd⟩
      have hlen : acc.length ≤ (acc ++ page).length := by
        rw [List.length_append]
        omega
      constructor
      · rw [hshape, List.map_cons]
        refine List.chain'_cons'.mpr ⟨?_, hch⟩
        intro y hy
        exact (hbd y (List.mem_of_mem_head? hy)).1
      · rw [hshape, List.map_cons]
        intro q hq
        rcases List.mem_cons.mp hq with h | h
        · subst h
          exact ⟨fetchPct_mono N hlen, min_le_right _ _⟩
        · rcases hbd q h with ⟨hl, hr⟩
          exact ⟨le_trans (fetchPct_mono N hlen) hl, hr⟩

/-- The `file_processed` events emitted while persisting `files`, starting
from `done` already-processed records (failure-free run). -/
def filesEvents (N : Nat) : Nat → List DriveFileData → List ProgressEvent
  | _, [] => []
  | done, _ :: rest =>
      ⟨"file_processed", N, done + 1,
        min (60 + ((done + 1 : Nat) : ℚ) / (N : ℚ) * 35) 95⟩
        :: filesEvents N (done + 1) rest

/-- A failure-free per-file step increments `processedFiles` by one. -/
theorem processOneFile_processed (N : Nat) (st : FileSyncState) (f : DriveFileData) :
    (processOneFile [] N st f).1.processedFiles = st.processedFiles + 1 := by
  simp only [processOneFile, List.not_mem_nil, if_false]
  cases hm : st.db.findFile f.id with
  | none => simp [hm]
  | some ex =>
      by_cases hc : fileHasChanges ex (toDriveFileRow f) = true <;> simp [hm, hc]

/-- A failure-free per-file step emits exactly one `file_processed` event
with the percent of the incremented processed count. -/
theorem processOneFile_events (N : Nat) (st : FileSyncState) (f : DriveFileData) :
    (processOneFile [] N st f).2
      = [⟨"file_processed", N, st.processedFiles + 1,
          min (60 + ((st.processedFiles + 1 : Nat) : ℚ) / (N : ℚ) * 35) 95⟩] := by
  simp only [processOneFile, List.not_mem_nil, if_false]
  cases hm : st.db.findFile f.id with
  | none => simp [hm]
  | some ex =>
      by_cases hc : fileHasChanges ex (toDriveFileRow f) = true <;> simp [hm, hc]

/-- The failure-free file fold appends exactly the `filesEvents` stream. -/
theorem foldFiles_events (N : Nat) :
    ∀ (files : List DriveFileData) (acc : FileSyncState × List ProgressEvent),
      (files.foldl (stepFile [] N) acc).2
        = acc.2 ++ filesEvents N acc.1.processedFiles files := by
  intro files
  induction files with
  | nil => intro acc; simp [filesEvents]
  | cons f rest ih =>
      intro acc
      rw [List.foldl_cons]
      rw [ih (stepFile [] N acc f)]
      have h2 : (stepFile [] N acc f).2
          = acc.2 ++ [⟨"file_processed", N, acc.1.processedFiles + 1,
              min (60 + ((acc.1.processedFiles + 1 : Nat) : ℚ) / (N : ℚ) * 35) 95⟩] := by
        show acc.2 ++ (processOneFile [] N acc.1 f).2 = _
        rw [processOneFile_events]
      have h1 : (stepFile [] N acc f).1.processedFiles = acc.1.processedFiles + 1 :=
        processOneFile_processed N acc.1 f
      rw [h2, h1, List.append_assoc]
      rfl

/-- Lower bound of the `filesEvents` stream by the percent of its starting
count. -/
theorem filesEvents_lb (N : Nat) :
    ∀ (files : List DriveFileData) (done : Nat),
      ∀ q ∈ (filesEvents N done files).map (fun e => e.percent),
        min (60 + ((done + 1 : Nat) : ℚ) / (N : ℚ) * 35) 95 ≤ q := by
  intro files
  induction files with
  | nil => intro done q hq; cases hq
  | cons f rest ih =>
      intro done q hq
      rw [filesEvents, List.map_cons] at hq
      rcases List.mem_cons.mp hq with h | h
      · subst h
        exact le_refl _
      · exact le_trans (filePct_mono N (Nat.le_succ (done + 1))) (ih (done + 1) q h)

/-- The `filesEvents` stream is non-decreasing and stays in the 60–95
band. -/
theorem filesEvents_mono (N : Nat) :
    ∀ (files : List DriveFileData) (done : Nat),
      List.Chain' (· ≤ ·) ((filesEvents N done files).map (fun e => e.percent)) ∧
      (∀ q ∈ (filesEvents N done files).map (fun e => e.percent),
        (60 : ℚ) ≤ q ∧ q ≤ 95) := by
  intro files
  induction files with
  | nil =>
      intro done
      exact ⟨List.chain'_nil, by intro q hq; cases hq⟩
  | cons f rest ih =>
      intro done
      rcases ih (done + 1) with ⟨hch, hbd⟩
      constructor
      · rw [filesEvents, List.map_cons]
        refine List.chain'_cons'.mpr ⟨?_, hch⟩
        intro y hy
        exact le_trans (filePct_mono N (Nat.le_succ (done + 1)))
          (filesEvents_lb N rest (done + 1) y (List.mem_of_mem_head? hy))
      · rw [filesEvents, List.map_cons]
        intro q hq
        rcases List.mem_cons.mp hq with h | h
        · subst h
          exact ⟨filePct_ge N (done + 1), min_le_right _ _⟩
        · exact hbd q h

/-- The permission loop emits non-decreasing percents in the 95–100 band,
bounded below by the percent of its starting index. -/
theorem syncPermsLoop_mono (permsOf : String → Option (List RawPermission))
    (failPermIds : List String) (n : Nat) :
    ∀ (fids : List String) (i : Nat) (st : PermSyncState),
      List.Chain' (· ≤ ·)
        ((syncPermsLoop permsOf failPermIds n i st fids).2.map (fun e => e.percent)) ∧
      (∀ q ∈ (syncPermsLoop permsOf failPermIds n i st fids).2.map (fun e => e.percent),
        min (95 + (i : ℚ) / (n : ℚ) * 5) 100 ≤ q ∧ (95 : ℚ) ≤ q ∧ q ≤ 100) := by
  intro fids
  induction fids with
  | nil =>
      intro i st
      exact ⟨List.chain'_nil, by intro q hq; cases hq⟩
  | cons fid rest ih =>
      intro i st
      cases hp : permsOf fid with
      | none =>
          have hshape : (syncPermsLoop permsOf failPermIds n i st (fid :: rest)).2
              = (syncPermsLoop permsOf failPermIds n (i + 1)
                  { st with errors := st.errors + 1 } rest).2 := by
            simp [syncPermsLoop, hp]
          rcases ih (i + 1) { st with errors := st.errors + 1 } with ⟨hch, hbd⟩
          rw [hshape]
          refine ⟨hch, ?_⟩
          intro q hq
          rcases hbd q hq with ⟨hl, h95, h100⟩
          exact ⟨le_trans (permPct_mono n (Nat.le_succ i)) hl, h95, h100⟩
      | some perms =>
          have hshape : (syncPermsLoop permsOf failPermIds n i st (fid :: rest)).2
              = ⟨"file_processed", n, i + 1, min (95 + (i : ℚ) / (n : ℚ) * 5) 100⟩
                :: (syncPermsLoop permsOf failPermIds n (i + 1)
                    (perms.foldl (processOnePermission failPermIds fid)
                      { st with totalPermissions := st.totalPermissions + perms.length })
                    rest).2 := by
            simp [syncPermsLoop, hp]
          rcases ih (i + 1)
            (perms.foldl (processOnePermission failPermIds fid)
              { st with totalPermissions := st.totalPermissions + perms.length }) with
            ⟨hch, hbd⟩
          constructor
          · rw [hshape, List.map_cons]
            refine List.chain'_cons'.mpr ⟨?_, hch⟩
            intro y hy
            rcases hbd y (List.mem_of_mem_head? hy) with ⟨hl, _, _⟩
            exact le_trans (permPct_mono n (Nat.le_succ i)) hl
          · rw [hshape, List.map_cons]
            intro q hq
            rcases List.mem_cons.mp hq with h | h
            · subst h
              exact ⟨le_refl _, permPct_ge n i, min_le_right _ _⟩
            · rcases hbd q h with ⟨hl, h95, h100⟩
              exact ⟨le_trans (permPct_mono n (Nat.le_succ i)) hl, h95, h100⟩

/-- **C3 (amended).** Progress percents are non-decreasing within every
phase, and across every phase boundary except counting → page-fetch; that
boundary is also non-decreasing whenever the first fetched page holds at
least one-twelfth of the total file count (in particular for any catalog of
at most 1200 files fetched in pages of 100). Under that proviso the entire
failure-free run emits a non-decreasing percent sequence. -/
theorem monotonic_progress_amended
    (pages : List (List RawDriveFile)) (permsOf : String → Option (List RawPermission))
    (db : DB)
    (hN : 0 < (getTotalFileCount pages).1)
    (hfirst : (getTotalFileCount pages).1 ≤ 12 * (pages.headD []).length) :
    List.Chain' (· ≤ ·)
      ((startSync pages permsOf [] [] db).events.map (fun e => e.percent)) := by
  cases pages with
  | nil => exact absurd hN (by simp [getTotalFileCount, countingLoop])
  | cons p1 rest =>
  have hNpos : (0 : ℚ) < ((getTotalFileCount (p1 :: rest)).1 : ℚ) := by
    exact_mod_cast hN
  have h12 : ((getTotalFileCount (p1 :: rest)).1 : ℚ) ≤ 12 * (p1.length : ℚ) := by
    exact_mod_cast hfirst
  have h5 : (5 : ℚ) ≤ min (((([] : List RawDriveFile) ++ p1).length : ℚ)
      / ((getTotalFileCount (p1 :: rest)).1 : ℚ) * 60) 60 := by
    refine le_min ?_ (by norm_num)
    have hlen : ((([] : List RawDriveFile) ++ p1).length : ℚ) = (p1.length : ℚ) := by
      norm_num
    rw [hlen, div_mul_eq_mul_div, le_div_iff hNpos]
    linarith
  have hF5 : ∀ x ∈ ((fetchLoop (getTotalFileCount (p1 :: rest)).1 [] (p1 :: rest)).2.map
      (fun e => e.percent)), (5 : ℚ) ≤ x := by
    intro x hx
    have hshape : (fetchLoop (getTotalFileCount (p1 :: rest)).1 [] (p1 :: rest)).2
        = ⟨"page_loaded", (getTotalFileCount (p1 :: rest)).1,
            (([] : List RawDriveFile) ++ p1).length,
            min (((([] : List RawDriveFile) ++ p1).length : ℚ)
              / ((getTotalFileCount (p1 :: rest)).1 : ℚ) * 60) 60⟩
          :: (fetchLoop (getTotalFileCount (p1 :: rest)).1
              (([] : List RawDriveFile) ++ p1) rest).2 := rfl
    rw [hshape, List.map_cons] at hx
    rcases List.mem_cons.mp hx with h | h
    · subst h
      exact h5
    · have hb := (fetchLoop_mono (getTotalFileCount (p1 :: rest)).1 rest
        (([] : List RawDriveFile) ++ p1)).2 x h
      exact le_trans h5 hb.1
  simp only [startSync]
  rw [processFilesBatch_eq_flat, foldFiles_events, List.nil_append]
  simp only [syncAllPermissions]
  rw [List.map_append, List.map_append, List.map_append]
  refine chain'_append_of_bounds 95 ?_ (syncPermsLoop_mono permsOf [] _ _ 0 _).1
    ?_ (fun x hx => ((syncPermsLoop_mono permsOf [] _ _ 0 _).2 x hx).2.1)
  · refine chain'_append_of_bounds 60 ?_
      (filesEvents_mono (getTotalFileCount (p1 :: rest)).1 _ _).1 ?_
      (fun x hx =>
        ((filesEvents_mono (getTotalFileCount (p1 :: rest)).1 _ _).2 x hx).1)
    · exact chain'_append_of_bounds 5 (countingLoop_mono (p1 :: rest) 0).1
        (fetchLoop_mono (getTotalFileCount (p1 :: rest)).1 (p1 :: rest) []).1
        (fun x hx => ((countingLoop_mono (p1 :: rest) 0).2 x hx).2)
        hF5
    · intro x hx
      rcases List.mem_append.mp hx with h | h
      · exact le_trans (((countingLoop_mono (p1 :: rest) 0).2 x h).2) (by norm_num)
      · exact ((fetchLoop_mono (getTotalFileCount (p1 :: rest)).1 (p1 :: rest) []).2
          x h).2
  · intro x hx
    rcases List.mem_append.mp hx with h | h
    · rcases List.mem_append.mp h with h2 | h2
      · exact le_trans (((countingLoop_mono (p1 :: rest) 0).2 x h2).2) (by norm_num)
      · exact le_trans
          (((fetchLoop_mono (getTotalFileCount (p1 :: rest)).1 (p1 :: rest) []).2
            x h2).2) (by norm_num)
    · exact ((filesEvents_mono (getTotalFileCount (p1 :: rest)).1 _ _).2 x h).2

/-- A raw file with a numeric id, used to build synthetic catalogs. -/
def mkRaw (i : Nat) : RawDriveFile :=
  { id := toString i, name := some ("f" ++ toString i), mimeType := none,
    parents := none, size := none, createdTime := none, modifiedTime := none,
    trashed := some false }

/-- A 50-file catalog whose first fetched page carries a single file. -/
def pages50 : List (List RawDriveFile) :=
  [[mkRaw 0], (List.range 49).map (fun i => mkRaw (i + 1))]

/-- **C3 counterexample.** Monotonic progress fails across the counting →
page-fetch boundary: with 50 files the counting phase reaches its 5 % cap
(its second event is 5), and the first fetch-page event then computes
(1/50)·60 = 1.2 — a lower percent after a higher one, so the emitted
sequence of a successful run is not non-decreasing. -/
theorem monotonic_progress_counterexample :
    ¬ List.Chain' (· ≤ ·)
      ((startSync pages50 (fun _ => some []) [] []
        { files := [], perms := [] }).events.map (fun e => e.percent)) := by
  intro h
  simp only [startSync] at h
  rw [List.map_append, List.map_append, List.map_append] at h
  have h2 := (List.chain'_append.mp h).1
  have h3 := (List.chain'_append.mp h2).1
  have h4 := (List.chain'_append.mp h3).2.2
  have hN : (getTotalFileCount pages50).1 = 50 := by decide
  have hC : (getTotalFileCount pages50).2.map (fun e => e.percent)
      = [min ((1 : ℚ) / 1000 * 100) 5, min ((50 : ℚ) / 1000 * 100) 5] := by
    show (countingLoop 0 pages50).2.map (fun e => e.percent) = _
    simp [pages50, countingLoop]
  have hF : ((fetchLoop (getTotalFileCount pages50).1 [] pages50).2.map
      (fun e => e.percent)).head? = some (min ((1 : ℚ) / (50 : ℚ) * 60) 60) := by
    rw [hN]
    simp [pages50, fetchLoop]
  have hlast : ((getTotalFileCount pages50).2.map (fun e => e.percent)).getLast?
      = some (min ((50 : ℚ) / 1000 * 100) 5) := by
    rw [hC]
    rfl
  have hle := h4 _ (Option.mem_def.mpr hlast) _ (Option.mem_def.mpr hF)
  have e1 : min ((50 : ℚ) / 1000 * 100) 5 = 5 := by
    rw [show ((50 : ℚ) / 1000 * 100) = 5 by norm_num, min_self]
  have e2 : min ((1 : ℚ) / (50 : ℚ) * 60) 60 = 6 / 5 := by
    rw [show ((1 : ℚ) / (50 : ℚ) * 60) = 6 / 5 by norm_num]
    exact min_eq_left (by norm_num)
  rw [e1, e2] at hle
  norm_num at hle

/-- Concrete instance of C3 (amended): a one-page run satisfies the
first-page proviso and its percent sequence is non-decreasing. -/
theorem monotonic_progress_amended_witness :
    List.Chain' (· ≤ ·)
      ((startSync [[exRaw]] (fun _ => some [exPermRaw]) [] [] dbW).events.map
        (fun e => e.percent)) :=
  monotonic_progress_amended [[exRaw]] (fun _ => some [exPermRaw]) dbW
    (by decide) (by decide)

end MetaDrive
